import Mathlib

/-!
Verification of the quick-lint-js configuration resolver and change watcher.

This file embeds, in Lean, the configuration loader
(`src/configuration-loader.cpp`), the configuration change detector
(`src/configuration-change-detector.cpp` and its header), and the kqueue
watch backend (`src/configuration-change-detector-kqueue.cpp`), and proves
properties of the embedding.

Modelling conventions:

* A canonical path (`canonical_path` in C++) is a list of path components
  stored deepest-component-first: `/t/dir/f` is `["f", "dir", "t"]` and the
  filesystem root is `[]`.  Two paths denote the same entity iff the lists
  are equal, matching the specification of canonical paths.
  `canonical_path::parent()` is `List.tail` (at the root it leaves the path
  unchanged and the C++ call returns false); `append_component` is cons.
* File contents (`padded_string`) are `String`s compared byte-for-byte.
* The external filesystem (`configuration_filesystem`) is a record of two
  pure functions, one per virtual method used by the resolver.  The
  detector overload `read_file(directory, file_name)` reads the joined
  path, so a single whole-path read function models both interfaces.
* `QLJS_UNIMPLEMENTED()` and failed `QLJS_ASSERT`s abort the process;
  operations that can reach them return `Option`, with `none` as the abort.
* `loaded_config_files_` is a `std::unordered_map` whose nodes are
  pointer-stable and never erased.  It is modelled as an association list
  to which entries are only ever appended or updated in place; the identity
  of a `loaded_config_file*` is the index of its entry in that list.
-/

deriving instance DecidableEq for Except

namespace QLJS

/-- A canonical path, deepest component first; `[]` is the filesystem root. -/
abbrev CanonPath := List String

/-- File contents (raw bytes of a `padded_string`). -/
abbrev FileContent := String

/-- The primary well-known config file name (tried first). -/
def primaryName : String := "quick-lint-js.config"

/-- The secondary well-known config file name (tried second). -/
def secondaryName : String := ".quick-lint-js.config"

/-- Result of `configuration_filesystem::read_file` (`read_file_result`):
success with content, a not-found error, or any other error. -/
inductive ReadResult where
  | ok (content : FileContent)
  | notFound (msg : String)
  | otherError (msg : String)
deriving DecidableEq, Repr

/-- Result of `configuration_filesystem::canonicalize_path`
(`canonical_path_result`).  `ok existing missing` is a successful
canonicalization whose canonical form is `missing.reverse ++ existing`;
`existing` is the deepest existing prefix and `missing` the trailing
non-existent components in outermost-first order
(`have_missing_components` is `missing ≠ []`, and
`drop_missing_components` keeps only `existing`). -/
inductive CanonResult where
  | ok (existing : CanonPath) (missing : List String)
  | error (msg : String)
deriving DecidableEq, Repr

/-- The external filesystem and canonicalizer seen by the resolver. -/
structure Fs where
  canonicalize : String → CanonResult
  readFile : CanonPath → ReadResult

/-- Modelled from the spec: the `configuration` class is outside the core
(`src/` has no configuration.cpp).  Per spec §3 it is an opaque value that
is reset-able and re-loadable from bytes, and "its path, once set, is
recorded inside it".  We record exactly the two observations the core
depends on: the recorded config-file path and the bytes of the most recent
`load_from_json`. -/
structure Configuration where
  configFilePath : Option CanonPath
  lastLoadedJson : Option FileContent
deriving DecidableEq, Repr, Inhabited

/-- A default-constructed `configuration` (no path set, nothing loaded). -/
def Configuration.init : Configuration := ⟨none, none⟩

/-- `configuration::set_config_file_path`. -/
def Configuration.set_config_file_path (c : Configuration) (p : CanonPath) :
    Configuration :=
  { c with configFilePath := some p }

/-- `configuration::load_from_json`. -/
def Configuration.load_from_json (c : Configuration) (s : FileContent) :
    Configuration :=
  { c with lastLoadedJson := some s }

/-- Modelled from the spec: `configuration::reset` clears the loaded state;
the recorded path, once set, stays recorded (spec §3). -/
def Configuration.reset (c : Configuration) : Configuration :=
  { c with lastLoadedJson := none }

/-- A `loaded_config_file`: the bytes last read and the parsed config. -/
structure LoadedEntry where
  fileContent : FileContent
  config : Configuration
deriving DecidableEq, Repr, Inhabited

/-- A default-constructed `loaded_config_file` (empty `padded_string`,
default `configuration`). -/
def defaultEntry : LoadedEntry := ⟨"", Configuration.init⟩

/-- The `loaded_config_files_` map: an association list of canonical config
path to entry.  Entries are only appended or updated in place, so an index
models a stable `loaded_config_file*`. -/
abbrev Cache := List (CanonPath × LoadedEntry)

/-- Find the (index, entry) of a key, like `unordered_map::find`. -/
def lookupPair : Cache → CanonPath → Option (Nat × LoadedEntry)
  | [], _ => none
  | (k, e) :: rest, p =>
    if k = p then some (0, e)
    else (lookupPair rest p).map (fun r => (r.1 + 1, r.2))

/-- The key stored at an index. -/
def keyAt (m : Cache) (i : Nat) : Option CanonPath := m[i]?.map (·.1)

/-- Replace the entry at an index, keeping its key (in-place node update). -/
def setEntryAt (m : Cache) (i : Nat) (e : LoadedEntry) : Cache :=
  match m[i]? with
  | some (k, _) => m.set i (k, e)
  | none => m

/-- `unordered_map::emplace` with a default-constructed value: returns the
(index, inserted?, entry after emplace, map after emplace). -/
def emplaceDefault (c : Cache) (p : CanonPath) :
    Nat × Bool × LoadedEntry × Cache :=
  match lookupPair c p with
  | some (i, e) => (i, false, e, c)
  | none => (c.length, true, defaultEntry, c ++ [(p, defaultEntry)])

/-- The identity of a returned `configuration*`: either the
`default_config_` singleton or the configuration inside the cache entry at
an index. -/
inductive ConfigPtr where
  | defaultPtr
  | entry (i : Nat)
deriving DecidableEq, Repr

/-- A reported `configuration_change`. -/
structure Change where
  watchedPath : String
  config : ConfigPtr
deriving DecidableEq, Repr

/-! ## The configuration loader (`src/configuration-loader.cpp`) -/

/-- `configuration_loader` state: the watched input paths
(`watched_paths_`), the input-path → config-path memo
(`input_path_config_files_`), and the config cache
(`loaded_config_files_`).  `default_config_` is the `ConfigPtr.defaultPtr`
singleton. -/
structure LoaderState where
  watchedPaths : List String
  inputPathConfigFiles : List (String × CanonPath)
  loadedConfigFiles : Cache
deriving DecidableEq, Repr

/-- A fresh `configuration_loader`. -/
def LoaderState.init : LoaderState := ⟨[], [], []⟩

/-- Plain association-list lookup (`input_path_config_files_.find`). -/
def assocLookup : List (String × CanonPath) → String → Option CanonPath
  | [], _ => none
  | (k, v) :: rest, s => if k = s then some v else assocLookup rest s

/-- `configuration_loader::found_config_file`: resolved path (if any), the
already-loaded cache index (if the cache check hit), fresh file content,
and an error message (empty string means no error), mirroring the C++
aggregate field for field. -/
structure FoundConfigFile where
  path : Option CanonPath
  alreadyLoaded : Option Nat
  fileContent : FileContent
  error : String
deriving DecidableEq, Repr

/-- The `fs_->read_file(config_path)` part of the loop body of
`find_config_file_in_directory_and_ancestors` (lines 205–221): `none`
means a not-found error, falling through to the next name. -/
def readConfigFile (fs : Fs) (configPath : CanonPath) :
    Option FoundConfigFile :=
  match fs.readFile configPath with
  | .ok content => some ⟨some configPath, none, content, ""⟩
  | .notFound _ => none
  | .otherError e => some ⟨some configPath, none, "", e⟩

/-- One config-name probe of the loop body of
`find_config_file_in_directory_and_ancestors` (lines 186–224): check the
cache when `check_loaded`, then read the file; `none` means not-found,
falling through to the next name. -/
def tryConfigName (fs : Fs) (cache : Cache) (checkLoaded : Bool)
    (dir : CanonPath) (name : String) : Option FoundConfigFile :=
  let configPath : CanonPath := name :: dir
  if checkLoaded then
    match lookupPair cache configPath with
    | some (i, _) => some ⟨some configPath, some i, "", ""⟩
    | none => readConfigFile fs configPath
  else readConfigFile fs configPath

/-- Both config-name probes at one directory, primary then secondary. -/
def tryConfigNames (fs : Fs) (cache : Cache) (checkLoaded : Bool)
    (dir : CanonPath) : Option FoundConfigFile :=
  (tryConfigName fs cache checkLoaded dir primaryName) <|>
    (tryConfigName fs cache checkLoaded dir secondaryName)

/-- `configuration_loader::find_config_file_in_directory_and_ancestors`:
walk from `dir` to the root, trying both names at each level; stop at the
first hit (or error).  In the deepest-first list encoding, the parent walk
is structural recursion on the tail. -/
def find_config_file_in_directory_and_ancestors (fs : Fs) (cache : Cache)
    (checkLoaded : Bool) : CanonPath → FoundConfigFile
  | [] =>
    (tryConfigNames fs cache checkLoaded []).getD ⟨none, none, "", ""⟩
  | dir@(_ :: parentDir) =>
    match tryConfigNames fs cache checkLoaded dir with
    | some found => found
    | none =>
      find_config_file_in_directory_and_ancestors fs cache checkLoaded
        parentDir

/-- The start directory of the ancestor walk (lines 116–124 and 260–269):
drop the missing trailing components if any, otherwise drop the file-name
component. -/
def walkStartDirectory (existing : CanonPath) (missing : List String) :
    CanonPath :=
  if missing.isEmpty then existing.tail else existing

/-- `configuration_loader::find_and_load_config_file_in_directory_and_ancestors`
(lines 143–174).  `none` models a failed `QLJS_ASSERT`. -/
def find_and_load_in_directory_and_ancestors (fs : Fs) (st : LoaderState)
    (dir : CanonPath) (inputPath : Option String) :
    Option (Except String ConfigPtr × LoaderState) :=
  let found := find_config_file_in_directory_and_ancestors fs
    st.loadedConfigFiles true dir
  if found.error ≠ "" then some (.error found.error, st)
  else
    match found.path with
    | none => some (.ok .defaultPtr, st)
    | some configPath =>
      match inputPath with
      | some ip =>
        match assocLookup st.inputPathConfigFiles ip with
        | some _ => none
        | none =>
          let st := { st with inputPathConfigFiles :=
            st.inputPathConfigFiles ++ [(ip, configPath)] }
          some (loadFoundEntry st configPath found)
      | none => some (loadFoundEntry st configPath found)
where
  /-- Lines 161–173: reuse the already-loaded entry, or emplace a fresh
  entry, fill its content, set the config path, and load. -/
  loadFoundEntry (st : LoaderState) (configPath : CanonPath)
      (found : FoundConfigFile) : Except String ConfigPtr × LoaderState :=
    match found.alreadyLoaded with
    | some i => (.ok (.entry i), st)
    | none =>
      let i := st.loadedConfigFiles.length
      let config :=
        (Configuration.init.set_config_file_path configPath).load_from_json
          found.fileContent
      (.ok (.entry i),
        { st with loadedConfigFiles :=
          st.loadedConfigFiles ++ [(configPath, ⟨found.fileContent, config⟩)] })

/-- `configuration_loader::find_and_load_config_file_for_input`
(lines 98–127): first the input-path memo, then canonicalize and walk. -/
def find_and_load_for_input (fs : Fs) (st : LoaderState)
    (inputPath : String) : Option (Except String ConfigPtr × LoaderState) :=
  match assocLookup st.inputPathConfigFiles inputPath with
  | some configPath =>
    match lookupPair st.loadedConfigFiles configPath with
    | some (i, _) => some (.ok (.entry i), st)
    | none => none
  | none =>
    match fs.canonicalize inputPath with
    | .error e => some (.error e, st)
    | .ok existing missing =>
      find_and_load_in_directory_and_ancestors fs st
        (walkStartDirectory existing missing) (some inputPath)

/-- `configuration_loader::find_and_load_config_file_for_current_directory`
(lines 129–141): canonicalize `"."`, drop missing components, walk without
a memo key. -/
def find_and_load_for_current_directory (fs : Fs) (st : LoaderState) :
    Option (Except String ConfigPtr × LoaderState) :=
  match fs.canonicalize "." with
  | .error e => some (.error e, st)
  | .ok existing _missing =>
    find_and_load_in_directory_and_ancestors fs st existing none

/-- `configuration_loader::load_config_file` (lines 65–93): canonicalize
the explicit config path, reuse the cache entry, else read and insert. -/
def load_config_file (fs : Fs) (st : LoaderState) (configPath : String) :
    Option (Except String ConfigPtr × LoaderState) :=
  match fs.canonicalize configPath with
  | .error e => some (.error e, st)
  | .ok existing missing =>
    let canonical : CanonPath := missing.reverse ++ existing
    match lookupPair st.loadedConfigFiles canonical with
    | some (i, _) => some (.ok (.entry i), st)
    | none =>
      match fs.readFile canonical with
      | .notFound e => some (.error e, st)
      | .otherError e => some (.error e, st)
      | .ok content =>
        let i := st.loadedConfigFiles.length
        let config :=
          (Configuration.init.set_config_file_path canonical).load_from_json
            content
        some (.ok (.entry i),
          { st with loadedConfigFiles :=
            st.loadedConfigFiles ++ [(canonical, ⟨content, config⟩)] })

/-- `configuration_loader::load_for_file(const std::string&)`
(lines 44–49): append the path to `watched_paths_` first, then resolve. -/
def load_for_file_path (fs : Fs) (st : LoaderState) (filePath : String) :
    Option (Except String ConfigPtr × LoaderState) :=
  find_and_load_for_input fs
    { st with watchedPaths := st.watchedPaths ++ [filePath] } filePath

/-- A `file_to_lint` as used by the structured overload (only the fields it
reads). -/
structure FileToLint where
  path : Option String
  configFile : Option String
deriving DecidableEq, Repr

/-- `configuration_loader::load_for_file(const file_to_lint&)`
(lines 51–63): never touches `watched_paths_`. -/
def load_for_file_lint (fs : Fs) (st : LoaderState) (file : FileToLint) :
    Option (Except String ConfigPtr × LoaderState) :=
  match file.configFile with
  | some cf => load_config_file fs st cf
  | none =>
    match file.path with
    | some p => find_and_load_for_input fs st p
    | none => find_and_load_for_current_directory fs st

/-- One iteration of the `configuration_loader::refresh` loop
(lines 253–318) for a single watched input path; `none` models the
`QLJS_UNIMPLEMENTED()` abort on canonicalization failure.  The memo
`input_path_config_files_` is read but never written by refresh. -/
def refreshOne (fs : Fs) (memo : List (String × CanonPath)) (cache : Cache)
    (inputPath : String) : Option (List Change × Cache) :=
  match fs.canonicalize inputPath with
  | .error _ => none
  | .ok existing missing =>
    let dir := walkStartDirectory existing missing
    let latest := find_config_file_in_directory_and_ancestors fs cache false
      dir
    match latest.path with
    | some configPath =>
      match lookupPair cache configPath with
      | some (i, alreadyLoaded) =>
        if latest.fileContent ≠ alreadyLoaded.fileContent then
          let config :=
            ((alreadyLoaded.config.reset).set_config_file_path
              configPath).load_from_json latest.fileContent
          some ([⟨inputPath, .entry i⟩],
            setEntryAt cache i ⟨latest.fileContent, config⟩)
        else some ([], cache)
      | none =>
        let i := cache.length
        let config :=
          ((Configuration.init.reset).set_config_file_path
            configPath).load_from_json latest.fileContent
        some ([⟨inputPath, .entry i⟩],
          cache ++ [(configPath, ⟨latest.fileContent, config⟩)])
    | none =>
      match assocLookup memo inputPath with
      | some _ => some ([⟨inputPath, .defaultPtr⟩], cache)
      | none => some ([], cache)

/-- The `configuration_loader::refresh` loop over `watched_paths_`. -/
def refreshLoop (fs : Fs) (memo : List (String × CanonPath)) :
    Cache → List String → Option (List Change × Cache)
  | cache, [] => some ([], cache)
  | cache, p :: rest =>
    match refreshOne fs memo cache p with
    | none => none
    | some (chs, cache1) =>
      match refreshLoop fs memo cache1 rest with
      | none => none
      | some (chs2, cache2) => some (chs ++ chs2, cache2)

/-- `configuration_loader::refresh` (lines 251–320). -/
def loaderRefresh (fs : Fs) (st : LoaderState) :
    Option (List Change × LoaderState) :=
  match refreshLoop fs st.inputPathConfigFiles st.loadedConfigFiles
    st.watchedPaths with
  | none => none
  | some (chs, cache) =>
    some (chs, { st with loadedConfigFiles := cache })

/-! ## The configuration change detector
(`src/configuration-change-detector.cpp`)

`configuration_change_detector_impl::get_config_file` interleaves the
ancestor walk with `enter_directory` watch registration and with in-place
cache/watch updates.  The accumulator below carries its mutable locals;
the `entered` and `lookups` fields are pure observation traces (the
directories passed to `fs_->enter_directory` and the config paths passed
to `fs_->read_file`) and are never read by the algorithm itself. -/

/-- A `watched_file`: the host-given source path and the canonical config
path currently governing it. -/
structure DetectorWatch where
  watchedFilePath : String
  configFilePath : Option CanonPath
deriving DecidableEq, Repr

/-- `configuration_change_detector_impl` state. -/
structure DetectorState where
  watches : List DetectorWatch
  loadedConfigFiles : Cache
deriving DecidableEq, Repr

/-- A fresh detector. -/
def DetectorState.init : DetectorState := ⟨[], []⟩

/-- The loop state of `get_config_file` (lines 65–113): `found` is the
`found_config` pointer together with its config path, `didChange` the
`*did_change` out-parameter, plus the watch, the cache, and the two
observation traces. -/
structure DetAcc where
  found : Option (Nat × CanonPath)
  didChange : Bool
  watch : DetectorWatch
  cache : Cache
  entered : List CanonPath
  lookups : List CanonPath
deriving DecidableEq, Repr

/-- The hit branch of the name loop (lines 76–99): emplace the entry at
`name :: dir`, compute `*did_change`, and if changed update the watch's
recorded path and reload the entry (the config path is set only on a fresh
insertion). -/
def detHit (acc : DetAcc) (dir : CanonPath) (name : String)
    (content : FileContent) : DetAcc :=
  let configPath : CanonPath := name :: dir
  let ed := emplaceDefault acc.cache configPath
  let i := ed.1
  let inserted := ed.2.1
  let entry := ed.2.2.1
  let cache1 := ed.2.2.2
  if ¬(some configPath = acc.watch.configFilePath ∧
      content = entry.fileContent) then
    let config0 := entry.config.reset
    let config1 :=
      if inserted then config0.set_config_file_path configPath else config0
    { acc with
      found := some (i, configPath)
      didChange := true
      watch := { acc.watch with configFilePath := some configPath }
      cache := setEntryAt cache1 i ⟨content, config1.load_from_json content⟩ }
  else
    { acc with
      found := some (i, configPath)
      didChange := false
      cache := cache1 }

/-- The name loop at one directory (lines 70–105): read the primary then
the secondary name; `none` models the `QLJS_UNIMPLEMENTED()` abort on a
non-not-found read error. -/
def detTryNames (fs : Fs) (acc : DetAcc) (dir : CanonPath) : Option DetAcc :=
  let p1 : CanonPath := primaryName :: dir
  let acc := { acc with lookups := acc.lookups ++ [p1] }
  match fs.readFile p1 with
  | .ok content => some (detHit acc dir primaryName content)
  | .otherError _ => none
  | .notFound _ =>
    let p2 : CanonPath := secondaryName :: dir
    let acc := { acc with lookups := acc.lookups ++ [p2] }
    match fs.readFile p2 with
    | .ok content => some (detHit acc dir secondaryName content)
    | .otherError _ => none
    | .notFound _ => some acc

/-- One iteration of the directory loop (lines 66–113): register the
directory with the watch engine, then look for config names unless one was
already found. -/
def detVisit (fs : Fs) (dir : CanonPath) (acc : DetAcc) : Option DetAcc :=
  let acc := { acc with entered := acc.entered ++ [dir] }
  if acc.found.isSome then some acc else detTryNames fs acc dir

/-- The full directory loop, walking from `dir` up to and including the
root. -/
def detWalk (fs : Fs) : CanonPath → DetAcc → Option DetAcc
  | [], acc => detVisit fs [] acc
  | dir@(_ :: parentDir), acc =>
    match detVisit fs dir acc with
    | none => none
    | some acc1 => detWalk fs parentDir acc1

/-- The result of `get_config_file`: the returned `loaded_config_file*`
(with its config path), the `*did_change` out-parameter, the updated watch
and cache, and the observation traces. -/
structure GetConfigFileResult where
  found : Option (Nat × CanonPath)
  didChange : Bool
  watch : DetectorWatch
  cache : Cache
  entered : List CanonPath
  lookups : List CanonPath
deriving DecidableEq, Repr

/-- `configuration_change_detector_impl::get_config_file` (lines 43–122):
canonicalize the watched path (abort on failure), walk the ancestors, and
on no hit report `did_change` iff a config path was recorded, clearing
it. -/
def get_config_file (fs : Fs) (cache : Cache) (watch : DetectorWatch) :
    Option GetConfigFileResult :=
  match fs.canonicalize watch.watchedFilePath with
  | .error _ => none
  | .ok existing missing =>
    let start := walkStartDirectory existing missing
    match detWalk fs start ⟨none, false, watch, cache, [], []⟩ with
    | none => none
    | some acc =>
      match acc.found with
      | some fc =>
        some ⟨some fc, acc.didChange, acc.watch, acc.cache, acc.entered,
          acc.lookups⟩
      | none =>
        some ⟨none, acc.watch.configFilePath.isSome,
          { acc.watch with configFilePath := none }, acc.cache, acc.entered,
          acc.lookups⟩

/-- `configuration_change_detector_impl::get_config_for_file`
(lines 35–41): append a fresh watch, resolve it, and return the config (or
the default-config singleton). -/
def get_config_for_file (fs : Fs) (st : DetectorState) (path : String) :
    Option (ConfigPtr × DetectorState) :=
  match get_config_file fs st.loadedConfigFiles ⟨path, none⟩ with
  | none => none
  | some r =>
    some (match r.found with
      | some (i, _) => .entry i
      | none => .defaultPtr,
      ⟨st.watches ++ [r.watch], r.cache⟩)

/-- The `configuration_change_detector_impl::refresh` loop (lines 124–138)
over the watches, threading the cache and rebuilding the (mutated-in-place)
watch list. -/
def detRefreshLoop (fs : Fs) :
    Cache → List DetectorWatch →
      Option (List Change × List DetectorWatch × Cache)
  | cache, [] => some ([], [], cache)
  | cache, w :: ws =>
    match get_config_file fs cache w with
    | none => none
    | some r =>
      match detRefreshLoop fs r.cache ws with
      | none => none
      | some (chs, ws2, cache2) =>
        let myChanges : List Change :=
          if r.didChange then
            [⟨w.watchedFilePath,
              match r.found with
              | some (i, _) => .entry i
              | none => .defaultPtr⟩]
          else []
        some (myChanges ++ chs, r.watch :: ws2, cache2)

/-- `configuration_change_detector_impl::refresh`. -/
def detRefresh (fs : Fs) (st : DetectorState) :
    Option (List Change × DetectorState) :=
  match detRefreshLoop fs st.loadedConfigFiles st.watches with
  | none => none
  | some (chs, watches, cache) => some (chs, ⟨watches, cache⟩)

/-! ## The kqueue watch backend
(`src/configuration-change-detector-kqueue.cpp`)

`configuration_filesystem_kqueue::watch_directory` (lines 88–121) opens a
fresh `O_EVTONLY` descriptor for the directory, registers an
`EVFILT_VNODE` filter for it on the kqueue, and unconditionally appends
the descriptor to `watched_directories_` — the in-source comment
`// @@@ don't duplicate watches` marks the missing deduplication.  `open`
is modelled as always succeeding with a fresh descriptor (failure is
`QLJS_UNIMPLEMENTED`, irrelevant to the accumulation behaviour). -/

/-- kqueue backend state: the next fresh file descriptor, the
`watched_directories_` vector of (descriptor, directory) pairs, and the
idents registered on the kqueue via `kevent(EV_ADD)`. -/
structure KqueueState where
  nextFd : Nat
  watchedDirectories : List (Nat × CanonPath)
  registeredIdents : List Nat
deriving DecidableEq, Repr

/-- A fresh kqueue backend. -/
def KqueueState.init : KqueueState := ⟨0, [], []⟩

/-- `configuration_filesystem_kqueue::watch_directory`. -/
def kqueue_watch_directory (st : KqueueState) (dir : CanonPath) :
    KqueueState :=
  let fd := st.nextFd
  { nextFd := fd + 1
    watchedDirectories := st.watchedDirectories ++ [(fd, dir)]
    registeredIdents := st.registeredIdents ++ [fd] }

/-- `configuration_filesystem_kqueue::enter_directory` (lines 44–47)
forwards to `watch_directory`. -/
def kqueue_enter_directory (st : KqueueState) (dir : CanonPath) :
    KqueueState :=
  kqueue_watch_directory st dir

/-! ## Cache primitives: lookup, keys, stability -/

/-- The keys of the cache, in insertion order. -/
def cacheKeys (m : Cache) : List CanonPath := m.map Prod.fst

/-- The cache keys are pairwise distinct (an `unordered_map` invariant). -/
def NodupKeys (m : Cache) : Prop := (cacheKeys m).Nodup

/-- `m2` extends `m`: no entry of `m` is removed or relocated — the entry
at every old index is still there, under the same key. -/
def CacheExtends (m m2 : Cache) : Prop :=
  m.length ≤ m2.length ∧ ∀ i, i < m.length → keyAt m2 i = keyAt m i

/-- Every key that resolves in `m` still resolves in `m2`. -/
def KeysGrow (m m2 : Cache) : Prop :=
  ∀ p, (lookupPair m p).isSome → (lookupPair m2 p).isSome


/-! ## Entry well-formedness (the `LoadedConfigFile` invariant) -/

/-- The `loaded_config_file` invariant of spec §3: the configuration's
recorded path equals the key path, and its last load took exactly the
stored bytes. -/
def EntryWF (ke : CanonPath × LoadedEntry) : Prop :=
  ke.2.config.configFilePath = some ke.1 ∧
  ke.2.config.lastLoadedJson = some ke.2.fileContent

/-- Every cache entry satisfies the `loaded_config_file` invariant. -/
def CacheWF (m : Cache) : Prop := ∀ ke ∈ m, EntryWF ke

/-- The combined effect contract of one cache-mutating step: no entry is
removed or relocated, resolvable keys stay resolvable, key distinctness is
preserved, and the entry invariant is preserved. -/
def CacheStepOK (m m2 : Cache) : Prop :=
  CacheExtends m m2 ∧ KeysGrow m m2 ∧
  (NodupKeys m → NodupKeys m2) ∧ (CacheWF m → CacheWF m2)


/-! ## Host calls on the loader, as one operation type -/

/-- A host call on `configuration_loader`: the two `load_for_file`
overloads, the explicit `load_config_file`, and `refresh`. -/
inductive LoaderOp where
  | loadPath (filePath : String)
  | loadLint (file : FileToLint)
  | loadConfigFile (configPath : String)
  | refresh
deriving DecidableEq, Repr

/-- The configuration pointers a call hands back to the host: the loaded
configuration for a load, the changes' configurations for a refresh. -/
def loadResultPtrs : Except String ConfigPtr → List ConfigPtr
  | .ok p => [p]
  | .error _ => []

/-- Run one host call; `none` is an abort
(`QLJS_UNIMPLEMENTED`/`QLJS_ASSERT`). -/
def runLoaderOp (fs : Fs) (op : LoaderOp) (st : LoaderState) :
    Option (List ConfigPtr × LoaderState) :=
  match op with
  | .loadPath s =>
    (load_for_file_path fs st s).map (fun r => (loadResultPtrs r.1, r.2))
  | .loadLint f =>
    (load_for_file_lint fs st f).map (fun r => (loadResultPtrs r.1, r.2))
  | .loadConfigFile p =>
    (load_config_file fs st p).map (fun r => (loadResultPtrs r.1, r.2))
  | .refresh =>
    (loaderRefresh fs st).map (fun r => (r.1.map (·.config), r.2))


/-! ## Auxiliary predicates about filesystems and detector state -/

/-- Discriminator: the read succeeded. -/
def ReadResult.okB : ReadResult → Bool
  | .ok _ => true
  | _ => false

/-- Discriminator: the read failed with not-found. -/
def ReadResult.notFoundB : ReadResult → Bool
  | .notFound _ => true
  | _ => false

/-- Neither well-known config name is readable in `d`: both reads report
not-found. -/
def noConfigDir (fs : Fs) (d : CanonPath) : Prop :=
  (fs.readFile (primaryName :: d)).notFoundB = true ∧
  (fs.readFile (secondaryName :: d)).notFoundB = true

/-- The name loop hits in `d`: the primary name is readable, or the primary
is not-found and the secondary is readable. -/
def hitAt (fs : Fs) (d : CanonPath) : Prop :=
  (fs.readFile (primaryName :: d)).okB = true ∨
  ((fs.readFile (primaryName :: d)).notFoundB = true ∧
    (fs.readFile (secondaryName :: d)).okB = true)

/-- The config name the name loop hits in `d` (meaningful under
`hitAt fs d`). -/
def hitName (fs : Fs) (d : CanonPath) : String :=
  if (fs.readFile (primaryName :: d)).okB then primaryName else secondaryName

/-- The config path the name loop hits in `d` (meaningful under
`hitAt fs d`). -/
def hitPath (fs : Fs) (d : CanonPath) : CanonPath := hitName fs d :: d

/-- A watch's recorded config path, when present, is a key of the cache
(spec §3 invariant). -/
def WatchOK (m : Cache) (w : DetectorWatch) : Prop :=
  ∀ p, w.configFilePath = some p → (lookupPair m p).isSome = true

/-- A host call on `configuration_change_detector_impl`. -/
inductive DetectorOp where
  | getConfigForFile (path : String)
  | refresh
deriving DecidableEq, Repr

/-- Run one detector host call; `none` is the `QLJS_UNIMPLEMENTED` abort. -/
def runDetectorOp (fs : Fs) (op : DetectorOp) (st : DetectorState) :
    Option DetectorState :=
  match op with
  | .getConfigForFile p => (get_config_for_file fs st p).map (·.2)
  | .refresh => (detRefresh fs st).map (·.2)

/-- The detector invariant: all cache entries well-formed, and every
watch's recorded path is a cache key. -/
def DetectorWF (st : DetectorState) : Prop :=
  CacheWF st.loadedConfigFiles ∧
  ∀ w ∈ st.watches, WatchOK st.loadedConfigFiles w

/-! ## Concrete filesystems and states (test fixtures for the witnesses)

The fixtures mirror the scenarios of `test/test-configuration-loader.cpp`:
a single source `/t/hello.js` governed by `/t/quick-lint-js.config`, the
same tree with the config deleted, a tree with both well-known names in
one directory, and a two-level tree with an outer and an inner config. -/

/-- One source file `/t/hello.js`; `/t/quick-lint-js.config` holds
`cfg-one`. -/
def fsOne : Fs where
  canonicalize := fun s =>
    if s = "/t/hello.js" then .ok ["hello.js", "t"] []
    else .error "canonicalize failed"
  readFile := fun p =>
    if p = [primaryName, "t"] then .ok "cfg-one" else .notFound "not found"

/-- The same tree after the config file is deleted. -/
def fsOneGone : Fs where
  canonicalize := fsOne.canonicalize
  readFile := fun _ => .notFound "not found"

/-- The same tree with both well-known config names present in `/t`. -/
def fsBoth : Fs where
  canonicalize := fsOne.canonicalize
  readFile := fun p =>
    if p = [primaryName, "t"] then .ok "both-primary"
    else if p = [secondaryName, "t"] then .ok "both-secondary"
    else .notFound "not found"

/-- Two sources `/t/a.js` and `/t/d/b.js`; `/t/quick-lint-js.config` holds
`AAA` and `/t/d/quick-lint-js.config` holds `BBB`. -/
def fsAB : Fs where
  canonicalize := fun s =>
    if s = "/t/a.js" then .ok ["a.js", "t"] []
    else if s = "/t/d/b.js" then .ok ["b.js", "d", "t"] []
    else .error "canonicalize failed"
  readFile := fun p =>
    if p = [primaryName, "t"] then .ok "AAA"
    else if p = [primaryName, "d", "t"] then .ok "BBB"
    else .notFound "not found"

/-- The two-level tree after the inner config `/t/d/quick-lint-js.config`
is deleted. -/
def fsABDel : Fs where
  canonicalize := fsAB.canonicalize
  readFile := fun p =>
    if p = [primaryName, "t"] then .ok "AAA"
    else .notFound "not found"

/-- The loader state a successful `load_for_file(path)` leaves behind. -/
def loadedStateAfter (fs : Fs) (st : LoaderState) (p : String) :
    LoaderState :=
  match load_for_file_path fs st p with
  | some r => r.2
  | none => st

/-- The canonical path of `/t/quick-lint-js.config`. -/
def cOne : CanonPath := [primaryName, "t"]

/-- The cache entry for `/t/quick-lint-js.config` holding `cfg-one`. -/
def eOne : LoadedEntry := ⟨"cfg-one", ⟨some cOne, some "cfg-one"⟩⟩

/-- The loader after `load_for_file("/t/hello.js")` on `fsOne`. -/
def stOne : LoaderState := loadedStateAfter fsOne LoaderState.init
  "/t/hello.js"

/-- The loader after a second `load_for_file("/t/hello.js")`. -/
def stOneTwice : LoaderState := loadedStateAfter fsOne stOne "/t/hello.js"

/-- The loader after `load_for_file("/t/a.js")` then
`load_for_file("/t/d/b.js")` on `fsAB`. -/
def stAB : LoaderState :=
  loadedStateAfter fsAB (loadedStateAfter fsAB LoaderState.init "/t/a.js")
    "/t/d/b.js"

/-- The loader after `load_for_file("/bad.js")` on `fsOne` (canonicalization
fails, yet the path is registered). -/
def stBad : LoaderState := loadedStateAfter fsOne LoaderState.init "/bad.js"

/-- `stBad` followed by a successful `load_for_file("/t/hello.js")`. -/
def stBadGood : LoaderState := loadedStateAfter fsOne stBad "/t/hello.js"

/-- A placeholder `get_config_file` result (for `Option.getD`). -/
def emptyGcfr : GetConfigFileResult := ⟨none, false, ⟨"", none⟩, [], [], []⟩

/-- A watch for `/t/hello.js` with `/t/quick-lint-js.config` recorded. -/
def wOneRec : DetectorWatch := ⟨"/t/hello.js", some cOne⟩

/-- The detector resolution of `wOneRec` against `fsOne` with `stOne`'s
cache (a hit with unchanged bytes). -/
def rOne : GetConfigFileResult :=
  (get_config_file fsOne stOne.loadedConfigFiles wOneRec).getD emptyGcfr

/-- The detector resolution of `wOneRec` after the config is deleted (no
hit; the recorded path is cleared). -/
def rGone : GetConfigFileResult :=
  (get_config_file fsOneGone stOne.loadedConfigFiles wOneRec).getD emptyGcfr

/-- The immediately following detector resolution of the cleared watch. -/
def rGone2 : GetConfigFileResult :=
  (get_config_file fsOneGone rGone.cache rGone.watch).getD emptyGcfr

/-- The detector after `get_config_for_file("/t/hello.js")` on `fsOne`. -/
def dstOne : DetectorState :=
  ((get_config_for_file fsOne DetectorState.init "/t/hello.js").getD
    (.defaultPtr, DetectorState.init)).2

/-- The loader after the structured-overload
`load_for_file(file_to_lint)` for `/t/hello.js` on `fsOne`. -/
def stLint : LoaderState :=
  ((load_for_file_lint fsOne LoaderState.init
    ⟨some "/t/hello.js", none⟩).getD (.ok .defaultPtr, LoaderState.init)).2

/-! ## Proofs -/

theorem cacheExtends_refl (m : Cache) : CacheExtends m m :=
  ⟨le_refl _, fun _ _ => rfl⟩

theorem cacheExtends_trans {a b m : Cache} (h1 : CacheExtends a b)
    (h2 : CacheExtends b m) : CacheExtends a m :=
  ⟨le_trans h1.1 h2.1, fun i hi => by
    rw [h2.2 i (lt_of_lt_of_le hi h1.1), h1.2 i hi]⟩

theorem keysGrow_refl (m : Cache) : KeysGrow m m := fun _ h => h

theorem keysGrow_trans {a b m : Cache} (h1 : KeysGrow a b)
    (h2 : KeysGrow b m) : KeysGrow a m := fun p h => h2 p (h1 p h)

theorem lookupPair_getElem? {m : Cache} {p : CanonPath} {i : Nat}
    {e : LoadedEntry} (h : lookupPair m p = some (i, e)) :
    m[i]? = some (p, e) := by
  induction m generalizing i with
  | nil => simp [lookupPair] at h
  | cons ke rest ih =>
    obtain ⟨k, e0⟩ := ke
    rw [lookupPair] at h
    by_cases hk : k = p
    · rw [if_pos hk] at h
      injection h with hh
      obtain ⟨rfl, rfl⟩ : 0 = i ∧ e0 = e :=
        ⟨congrArg Prod.fst hh, congrArg Prod.snd hh⟩
      subst hk
      simp
    · rw [if_neg hk] at h
      cases hrest : lookupPair rest p with
      | none => rw [hrest] at h; simp at h
      | some je =>
        obtain ⟨j, e2⟩ := je
        rw [hrest] at h
        simp only [Option.map_some'] at h
        injection h with hh
        obtain ⟨rfl, rfl⟩ : j + 1 = i ∧ e2 = e :=
          ⟨congrArg Prod.fst hh, congrArg Prod.snd hh⟩
        simpa using ih hrest

theorem lookupPair_isSome_iff {m : Cache} {p : CanonPath} :
    (lookupPair m p).isSome = true ↔ p ∈ cacheKeys m := by
  induction m with
  | nil => simp [lookupPair, cacheKeys]
  | cons ke rest ih =>
    obtain ⟨k, e0⟩ := ke
    rw [lookupPair]
    by_cases hk : k = p
    · simp [hk, cacheKeys]
    · rw [if_neg hk]
      have hmem : p ∈ cacheKeys ((k, e0) :: rest) ↔ p ∈ cacheKeys rest := by
        simp [cacheKeys, Ne.symm hk]
      rw [hmem, ← ih]
      cases lookupPair rest p <;> simp

theorem lookupPair_none_iff {m : Cache} {p : CanonPath} :
    lookupPair m p = none ↔ p ∉ cacheKeys m := by
  rw [← lookupPair_isSome_iff]
  cases lookupPair m p <;> simp

theorem keyAt_lt_length {m : Cache} {i : Nat} {k : CanonPath}
    (h : keyAt m i = some k) : i < m.length := by
  by_contra hge
  rw [keyAt, List.getElem?_eq_none (by omega)] at h
  simp at h

theorem keyAt_append {m : Cache} {ke : CanonPath × LoadedEntry} {i : Nat}
    (h : i < m.length) : keyAt (m ++ [ke]) i = keyAt m i := by
  rw [keyAt, keyAt, List.getElem?_append_left h]

theorem cacheExtends_append (m : Cache) (ke : CanonPath × LoadedEntry) :
    CacheExtends m (m ++ [ke]) :=
  ⟨by simp, fun _ hi => keyAt_append hi⟩

theorem keyAt_setEntryAt (m : Cache) (i : Nat) (e : LoadedEntry) (j : Nat) :
    keyAt (setEntryAt m i e) j = keyAt m j := by
  rw [setEntryAt]
  cases h : m[i]? with
  | none => rfl
  | some ke =>
    obtain ⟨k, e0⟩ := ke
    have hi : i < m.length := by
      by_contra hge
      rw [List.getElem?_eq_none (by omega)] at h
      simp at h
    by_cases hj : j = i
    · subst hj
      rw [keyAt, keyAt, List.getElem?_set_self hi, h]
      simp
    · rw [keyAt, keyAt, List.getElem?_set_ne (Ne.symm hj)]

theorem setEntryAt_length (m : Cache) (i : Nat) (e : LoadedEntry) :
    (setEntryAt m i e).length = m.length := by
  rw [setEntryAt]
  cases h : m[i]? with
  | none => rfl
  | some ke => simp

theorem cacheKeys_setEntryAt (m : Cache) (i : Nat) (e : LoadedEntry) :
    cacheKeys (setEntryAt m i e) = cacheKeys m := by
  apply List.ext_getElem?
  intro n
  have h := keyAt_setEntryAt m i e n
  rw [keyAt, keyAt] at h
  rw [cacheKeys, cacheKeys, List.getElem?_map, List.getElem?_map]
  exact h

theorem cacheExtends_setEntryAt (m : Cache) (i : Nat) (e : LoadedEntry) :
    CacheExtends m (setEntryAt m i e) :=
  ⟨le_of_eq (setEntryAt_length m i e).symm,
    fun j _ => keyAt_setEntryAt m i e j⟩

theorem keysGrow_of_keys_subset {m m2 : Cache}
    (h : ∀ p, p ∈ cacheKeys m → p ∈ cacheKeys m2) : KeysGrow m m2 := by
  intro p hp
  rw [lookupPair_isSome_iff] at hp ⊢
  exact h p hp

theorem keysGrow_setEntryAt (m : Cache) (i : Nat) (e : LoadedEntry) :
    KeysGrow m (setEntryAt m i e) :=
  keysGrow_of_keys_subset (fun p hp => by rwa [cacheKeys_setEntryAt])

theorem keysGrow_append (m : Cache) (ke : CanonPath × LoadedEntry) :
    KeysGrow m (m ++ [ke]) :=
  keysGrow_of_keys_subset (fun p hp => by
    rw [cacheKeys, List.map_append]
    exact List.mem_append_left _ hp)

theorem nodupKeys_append {m : Cache} {p : CanonPath} {e : LoadedEntry}
    (hnd : NodupKeys m) (hmiss : lookupPair m p = none) :
    NodupKeys (m ++ [(p, e)]) := by
  have hp : p ∉ cacheKeys m := lookupPair_none_iff.mp hmiss
  rw [NodupKeys, cacheKeys, List.map_append, List.nodup_append]
  refine ⟨hnd, List.nodup_singleton _, ?_⟩
  intro q hq hq2
  simp at hq2
  subst hq2
  exact hp hq

theorem nodupKeys_setEntryAt {m : Cache} (i : Nat) (e : LoadedEntry)
    (hnd : NodupKeys m) : NodupKeys (setEntryAt m i e) := by
  rw [NodupKeys, cacheKeys_setEntryAt]
  exact hnd

theorem keyAt_eq_keys_getElem? (m : Cache) (i : Nat) :
    keyAt m i = (cacheKeys m)[i]? := by
  rw [keyAt, cacheKeys, List.getElem?_map]

theorem keyAt_inj {m : Cache} {i j : Nat} {k : CanonPath}
    (hnd : NodupKeys m) (hi : keyAt m i = some k) (hj : keyAt m j = some k) :
    i = j := by
  have hlt := keyAt_lt_length hi
  rw [keyAt_eq_keys_getElem?] at hi hj
  have hilt : i < (cacheKeys m).length := by
    rwa [cacheKeys, List.length_map]
  exact List.getElem?_inj hilt hnd (hi.trans hj.symm)

theorem cacheStepOK_refl (m : Cache) : CacheStepOK m m :=
  ⟨cacheExtends_refl m, keysGrow_refl m, id, id⟩

theorem cacheStepOK_trans {a b m : Cache} (h1 : CacheStepOK a b)
    (h2 : CacheStepOK b m) : CacheStepOK a m :=
  ⟨cacheExtends_trans h1.1 h2.1, keysGrow_trans h1.2.1 h2.2.1,
    fun h => h2.2.2.1 (h1.2.2.1 h), fun h => h2.2.2.2 (h1.2.2.2 h)⟩

theorem cacheStepOK_append {m : Cache} {p : CanonPath} {e : LoadedEntry}
    (hmiss : lookupPair m p = none) (hwf : EntryWF (p, e)) :
    CacheStepOK m (m ++ [(p, e)]) := by
  refine ⟨cacheExtends_append m _, keysGrow_append m _,
    fun h => nodupKeys_append h hmiss, fun h => ?_⟩
  intro ke hke
  rcases List.mem_append.mp hke with h1 | h2
  · exact h ke h1
  · simp at h2
    subst h2
    exact hwf

theorem cacheStepOK_setEntryAt {m : Cache} {i : Nat} {k : CanonPath}
    {e : LoadedEntry} (hk : keyAt m i = some k) (hwf : EntryWF (k, e)) :
    CacheStepOK m (setEntryAt m i e) := by
  refine ⟨cacheExtends_setEntryAt m i e, keysGrow_setEntryAt m i e,
    nodupKeys_setEntryAt i e, fun h => ?_⟩
  intro ke hke
  rw [setEntryAt] at hke
  cases hg : m[i]? with
  | none => rw [hg] at hke; exact h ke hke
  | some ke0 =>
    obtain ⟨k0, e0⟩ := ke0
    rw [hg] at hke
    have hk0 : k0 = k := by
      rw [keyAt, hg] at hk
      simpa using hk
    subst hk0
    rcases List.mem_or_eq_of_mem_set hke with h1 | h2
    · exact h ke h1
    · subst h2
      exact hwf

/-- The entry written by a fresh load (content, set path, load json) is
well-formed. -/
theorem entryWF_fresh (p : CanonPath) (b : FileContent) (c : Configuration) :
    EntryWF (p, ⟨b, (c.set_config_file_path p).load_from_json b⟩) := by
  constructor <;> rfl

/-- The entry written by a reset-then-reload that re-sets the path is
well-formed. -/
theorem entryWF_reload (p : CanonPath) (b : FileContent)
    (c : Configuration) :
    EntryWF (p, ⟨b, ((c.reset).set_config_file_path p).load_from_json b⟩) := by
  constructor <;> rfl

/-! ## Properties of the loader's config-file search -/

theorem readConfigFile_alreadyLoaded {fs : Fs} {cp : CanonPath}
    {f : FoundConfigFile} (h : readConfigFile fs cp = some f) :
    f.alreadyLoaded = none ∧ f.path = some cp := by
  rw [readConfigFile] at h
  cases hr : fs.readFile cp <;> rw [hr] at h
  case ok content =>
    injection h with h
    subst h
    exact ⟨rfl, rfl⟩
  case notFound msg => simp at h
  case otherError msg =>
    injection h with h
    subst h
    exact ⟨rfl, rfl⟩

/-- A probe that hits without an `already_loaded` pointer implies the
config path is not a cache key (the cache was checked before the read). -/
theorem tryConfigName_miss {fs : Fs} {m : Cache} {dir : CanonPath}
    {nm : String} {f : FoundConfigFile} {cp : CanonPath}
    (h : tryConfigName fs m true dir nm = some f)
    (hp : f.path = some cp) (hal : f.alreadyLoaded = none) :
    lookupPair m cp = none := by
  rw [tryConfigName, if_pos rfl] at h
  cases hl : lookupPair m (nm :: dir) with
  | some ie =>
    obtain ⟨i, e⟩ := ie
    rw [hl] at h
    injection h with h
    subst h
    simp at hal
  | none =>
    rw [hl] at h
    have := (readConfigFile_alreadyLoaded h).2
    rw [this] at hp
    injection hp with hp
    subst hp
    exact hl

theorem tryConfigNames_miss {fs : Fs} {m : Cache} {dir : CanonPath}
    {f : FoundConfigFile} {cp : CanonPath}
    (h : tryConfigNames fs m true dir = some f)
    (hp : f.path = some cp) (hal : f.alreadyLoaded = none) :
    lookupPair m cp = none := by
  rw [tryConfigNames] at h
  cases h1 : tryConfigName fs m true dir primaryName with
  | some f1 =>
    rw [h1] at h
    simp only [Option.some_orElse] at h
    injection h with h
    subst h
    exact tryConfigName_miss h1 hp hal
  | none =>
    rw [h1] at h
    simp only [Option.none_orElse] at h
    exact tryConfigName_miss h hp hal

/-- During the upward search with the cache check enabled, a hit without an
`already_loaded` pointer means the path is absent from the cache. -/
theorem find_config_file_miss {fs : Fs} {m : Cache} {cp : CanonPath} :
    ∀ {dir : CanonPath},
      (find_config_file_in_directory_and_ancestors fs m true dir).path =
        some cp →
      (find_config_file_in_directory_and_ancestors fs m true dir).alreadyLoaded
        = none →
      lookupPair m cp = none := by
  intro dir
  induction dir with
  | nil =>
    intro hp hal
    rw [find_config_file_in_directory_and_ancestors] at hp hal
    cases h : tryConfigNames fs m true [] with
    | some f =>
      rw [h] at hp hal
      exact tryConfigNames_miss h hp hal
    | none =>
      rw [h] at hp
      simp at hp
  | cons x rest ih =>
    intro hp hal
    rw [find_config_file_in_directory_and_ancestors] at hp hal
    cases h : tryConfigNames fs m true (x :: rest) with
    | some f =>
      rw [h] at hp hal
      exact tryConfigNames_miss h hp hal
    | none =>
      rw [h] at hp hal
      exact ih hp hal

/-! ## State effects of the loader operations -/

theorem find_and_load_in_dir_effects {fs : Fs} {st : LoaderState}
    {dir : CanonPath} {ip : Option String} {r : Except String ConfigPtr}
    {st' : LoaderState}
    (h : find_and_load_in_directory_and_ancestors fs st dir ip =
      some (r, st')) :
    st'.watchedPaths = st.watchedPaths ∧
    CacheStepOK st.loadedConfigFiles st'.loadedConfigFiles := by
  rw [find_and_load_in_directory_and_ancestors] at h
  generalize hF : find_config_file_in_directory_and_ancestors fs
    st.loadedConfigFiles true dir = found at h
  have hmain : ∀ (st0 : LoaderState) (cp : CanonPath),
      st0.watchedPaths = st.watchedPaths →
      st0.loadedConfigFiles = st.loadedConfigFiles →
      found.path = some cp →
      find_and_load_in_directory_and_ancestors.loadFoundEntry st0 cp found
        = (r, st') →
      st'.watchedPaths = st.watchedPaths ∧
      CacheStepOK st.loadedConfigFiles st'.loadedConfigFiles := by
    intro st0 cp hw hc hp hle
    rw [find_and_load_in_directory_and_ancestors.loadFoundEntry] at hle
    cases hal : found.alreadyLoaded with
    | some i =>
      rw [hal] at hle
      obtain ⟨rfl, rfl⟩ : .ok (.entry i) = r ∧ st0 = st' :=
        ⟨congrArg Prod.fst hle, congrArg Prod.snd hle⟩
      exact ⟨hw, hc ▸ cacheStepOK_refl _⟩
    | none =>
      rw [hal] at hle
      obtain ⟨rfl, rfl⟩ : _ = r ∧ _ = st' :=
        ⟨congrArg Prod.fst hle, congrArg Prod.snd hle⟩
      refine ⟨hw, ?_⟩
      simp only [hc]
      have hmiss : lookupPair st.loadedConfigFiles cp = none := by
        apply @find_config_file_miss fs st.loadedConfigFiles cp dir <;>
          rw [hF]
        · exact hp
        · exact hal
      exact cacheStepOK_append hmiss (entryWF_fresh cp found.fileContent
        Configuration.init)
  split at h
  · injection h with h
    obtain ⟨rfl, rfl⟩ : .error found.error = r ∧ st = st' :=
      ⟨congrArg Prod.fst h, congrArg Prod.snd h⟩
    exact ⟨rfl, cacheStepOK_refl _⟩
  · split at h
    · injection h with h
      obtain ⟨rfl, rfl⟩ : .ok .defaultPtr = r ∧ st = st' :=
        ⟨congrArg Prod.fst h, congrArg Prod.snd h⟩
      exact ⟨rfl, cacheStepOK_refl _⟩
    · rename_i cp hp
      cases ip with
      | none =>
        injection h with h
        exact hmain st cp rfl rfl hp h
      | some ipStr =>
        rw [show (match some ipStr with
          | some ip =>
            match assocLookup st.inputPathConfigFiles ip with
            | some _ => none
            | none =>
              some (find_and_load_in_directory_and_ancestors.loadFoundEntry
                { st with inputPathConfigFiles :=
                  st.inputPathConfigFiles ++ [(ip, cp)] } cp found)
          | none =>
            some (find_and_load_in_directory_and_ancestors.loadFoundEntry
              st cp found) : Option (Except String ConfigPtr × LoaderState)) =
          (match assocLookup st.inputPathConfigFiles ipStr with
            | some _ => none
            | none =>
              some (find_and_load_in_directory_and_ancestors.loadFoundEntry
                { st with inputPathConfigFiles :=
                  st.inputPathConfigFiles ++ [(ipStr, cp)] } cp found))
          from rfl] at h
        cases hml : assocLookup st.inputPathConfigFiles ipStr with
        | some q => rw [hml] at h; simp at h
        | none =>
          rw [hml] at h
          injection h with h
          exact hmain { st with inputPathConfigFiles :=
            st.inputPathConfigFiles ++ [(ipStr, cp)] } cp rfl rfl hp h

theorem find_and_load_for_input_effects {fs : Fs} {st : LoaderState}
    {ip : String} {r : Except String ConfigPtr} {st' : LoaderState}
    (h : find_and_load_for_input fs st ip = some (r, st')) :
    st'.watchedPaths = st.watchedPaths ∧
    CacheStepOK st.loadedConfigFiles st'.loadedConfigFiles := by
  rw [find_and_load_for_input] at h
  cases hml : assocLookup st.inputPathConfigFiles ip with
  | some cp =>
    simp only [hml] at h
    cases hlp : lookupPair st.loadedConfigFiles cp with
    | none => simp [hlp] at h
    | some ie =>
      obtain ⟨i, e⟩ := ie
      simp only [hlp] at h
      injection h with h
      obtain ⟨rfl, rfl⟩ : .ok (.entry i) = r ∧ st = st' :=
        ⟨congrArg Prod.fst h, congrArg Prod.snd h⟩
      exact ⟨rfl, cacheStepOK_refl _⟩
  | none =>
    simp only [hml] at h
    cases hcr : fs.canonicalize ip with
    | error e =>
      simp only [hcr] at h
      injection h with h
      obtain ⟨rfl, rfl⟩ : .error e = r ∧ st = st' :=
        ⟨congrArg Prod.fst h, congrArg Prod.snd h⟩
      exact ⟨rfl, cacheStepOK_refl _⟩
    | ok existing missing =>
      simp only [hcr] at h
      exact find_and_load_in_dir_effects h

theorem find_and_load_for_current_directory_effects {fs : Fs}
    {st : LoaderState} {r : Except String ConfigPtr} {st' : LoaderState}
    (h : find_and_load_for_current_directory fs st = some (r, st')) :
    st'.watchedPaths = st.watchedPaths ∧
    CacheStepOK st.loadedConfigFiles st'.loadedConfigFiles := by
  rw [find_and_load_for_current_directory] at h
  cases hcr : fs.canonicalize "." with
  | error e =>
    simp only [hcr] at h
    injection h with h
    obtain ⟨rfl, rfl⟩ : .error e = r ∧ st = st' :=
      ⟨congrArg Prod.fst h, congrArg Prod.snd h⟩
    exact ⟨rfl, cacheStepOK_refl _⟩
  | ok existing missing =>
    simp only [hcr] at h
    exact find_and_load_in_dir_effects h

theorem load_config_file_effects {fs : Fs} {st : LoaderState} {p : String}
    {r : Except String ConfigPtr} {st' : LoaderState}
    (h : load_config_file fs st p = some (r, st')) :
    st'.watchedPaths = st.watchedPaths ∧
    st'.inputPathConfigFiles = st.inputPathConfigFiles ∧
    CacheStepOK st.loadedConfigFiles st'.loadedConfigFiles := by
  rw [load_config_file] at h
  cases hcr : fs.canonicalize p with
  | error e =>
    simp only [hcr] at h
    injection h with h
    obtain ⟨rfl, rfl⟩ : .error e = r ∧ st = st' :=
      ⟨congrArg Prod.fst h, congrArg Prod.snd h⟩
    exact ⟨rfl, rfl, cacheStepOK_refl _⟩
  | ok existing missing =>
    simp only [hcr] at h
    cases hlp : lookupPair st.loadedConfigFiles (missing.reverse ++ existing)
      with
    | some ie =>
      obtain ⟨i, e⟩ := ie
      simp only [hlp] at h
      injection h with h
      obtain ⟨rfl, rfl⟩ : .ok (.entry i) = r ∧ st = st' :=
        ⟨congrArg Prod.fst h, congrArg Prod.snd h⟩
      exact ⟨rfl, rfl, cacheStepOK_refl _⟩
    | none =>
      simp only [hlp] at h
      cases hr : fs.readFile (missing.reverse ++ existing) with
      | notFound e =>
        simp only [hr] at h
        injection h with h
        obtain ⟨rfl, rfl⟩ : .error e = r ∧ st = st' :=
          ⟨congrArg Prod.fst h, congrArg Prod.snd h⟩
        exact ⟨rfl, rfl, cacheStepOK_refl _⟩
      | otherError e =>
        simp only [hr] at h
        injection h with h
        obtain ⟨rfl, rfl⟩ : .error e = r ∧ st = st' :=
          ⟨congrArg Prod.fst h, congrArg Prod.snd h⟩
        exact ⟨rfl, rfl, cacheStepOK_refl _⟩
      | ok content =>
        simp only [hr] at h
        injection h with h
        obtain ⟨rfl, rfl⟩ : _ = r ∧ _ = st' :=
          ⟨congrArg Prod.fst h, congrArg Prod.snd h⟩
        exact ⟨rfl, rfl,
          cacheStepOK_append hlp (entryWF_fresh _ content Configuration.init)⟩

theorem load_for_file_path_effects {fs : Fs} {st : LoaderState} {p : String}
    {r : Except String ConfigPtr} {st' : LoaderState}
    (h : load_for_file_path fs st p = some (r, st')) :
    st'.watchedPaths = st.watchedPaths ++ [p] ∧
    CacheStepOK st.loadedConfigFiles st'.loadedConfigFiles := by
  rw [load_for_file_path] at h
  have := find_and_load_for_input_effects h
  exact ⟨this.1, this.2⟩

theorem load_for_file_lint_effects {fs : Fs} {st : LoaderState}
    {f : FileToLint} {r : Except String ConfigPtr} {st' : LoaderState}
    (h : load_for_file_lint fs st f = some (r, st')) :
    st'.watchedPaths = st.watchedPaths ∧
    CacheStepOK st.loadedConfigFiles st'.loadedConfigFiles := by
  rw [load_for_file_lint] at h
  cases hcf : f.configFile with
  | some cf =>
    rw [hcf] at h
    have := load_config_file_effects h
    exact ⟨this.1, this.2.2⟩
  | none =>
    rw [hcf] at h
    cases hp : f.path with
    | some p =>
      rw [hp] at h
      exact find_and_load_for_input_effects h
    | none =>
      rw [hp] at h
      exact find_and_load_for_current_directory_effects h

/-! ## State effects of the loader's refresh -/

theorem refreshOne_effects {fs : Fs} {memo : List (String × CanonPath)}
    {m : Cache} {ip : String} {chs : List Change} {m' : Cache}
    (h : refreshOne fs memo m ip = some (chs, m')) :
    CacheStepOK m m' ∧ ∀ ch ∈ chs, ch.watchedPath = ip := by
  rw [refreshOne] at h
  cases hcr : fs.canonicalize ip with
  | error e => simp [hcr] at h
  | ok existing missing =>
    simp only [hcr] at h
    generalize hL : find_config_file_in_directory_and_ancestors fs m false
      (walkStartDirectory existing missing) = latest at h
    cases hp : latest.path with
    | some cp =>
      simp only [hp] at h
      cases hlp : lookupPair m cp with
      | some ie =>
        obtain ⟨i, e⟩ := ie
        simp only [hlp] at h
        by_cases hne : latest.fileContent ≠ e.fileContent
        · rw [if_pos hne] at h
          injection h with h
          obtain ⟨rfl, rfl⟩ : _ = chs ∧ _ = m' :=
            ⟨congrArg Prod.fst h, congrArg Prod.snd h⟩
          have hkey : keyAt m i = some cp := by
            rw [keyAt, lookupPair_getElem? hlp]
            rfl
          refine ⟨cacheStepOK_setEntryAt hkey (entryWF_reload cp _ _), ?_⟩
          intro ch hch
          simp at hch
          subst hch
          rfl
        · rw [if_neg hne] at h
          injection h with h
          obtain ⟨rfl, rfl⟩ : _ = chs ∧ _ = m' :=
            ⟨congrArg Prod.fst h, congrArg Prod.snd h⟩
          exact ⟨cacheStepOK_refl _, by intro ch hch; simp at hch⟩
      | none =>
        simp only [hlp] at h
        injection h with h
        obtain ⟨rfl, rfl⟩ : _ = chs ∧ _ = m' :=
          ⟨congrArg Prod.fst h, congrArg Prod.snd h⟩
        refine ⟨cacheStepOK_append hlp (entryWF_reload cp _ _), ?_⟩
        intro ch hch
        simp at hch
        subst hch
        rfl
    | none =>
      simp only [hp] at h
      cases hml : assocLookup memo ip with
      | some q =>
        simp only [hml] at h
        injection h with h
        obtain ⟨rfl, rfl⟩ : _ = chs ∧ _ = m' :=
          ⟨congrArg Prod.fst h, congrArg Prod.snd h⟩
        refine ⟨cacheStepOK_refl _, ?_⟩
        intro ch hch
        simp at hch
        subst hch
        rfl
      | none =>
        simp only [hml] at h
        injection h with h
        obtain ⟨rfl, rfl⟩ : _ = chs ∧ _ = m' :=
          ⟨congrArg Prod.fst h, congrArg Prod.snd h⟩
        exact ⟨cacheStepOK_refl _, by intro ch hch; simp at hch⟩

theorem refreshLoop_effects {fs : Fs} {memo : List (String × CanonPath)} :
    ∀ {paths : List String} {m : Cache} {chs : List Change} {m' : Cache},
      refreshLoop fs memo m paths = some (chs, m') →
      CacheStepOK m m' ∧ ∀ ch ∈ chs, ch.watchedPath ∈ paths := by
  intro paths
  induction paths with
  | nil =>
    intro m chs m' h
    rw [refreshLoop] at h
    injection h with h
    obtain ⟨rfl, rfl⟩ : _ = chs ∧ _ = m' :=
      ⟨congrArg Prod.fst h, congrArg Prod.snd h⟩
    exact ⟨cacheStepOK_refl _, by intro ch hch; simp at hch⟩
  | cons p rest ih =>
    intro m chs m' h
    rw [refreshLoop] at h
    cases h1 : refreshOne fs memo m p with
    | none => rw [h1] at h; simp at h
    | some cm1 =>
      obtain ⟨chs1, m1⟩ := cm1
      simp only [h1] at h
      cases h2 : refreshLoop fs memo m1 rest with
      | none => simp [h2] at h
      | some cm2 =>
        obtain ⟨chs2, m2⟩ := cm2
        simp only [h2] at h
        injection h with h
        obtain ⟨rfl, rfl⟩ : _ = chs ∧ _ = m' :=
          ⟨congrArg Prod.fst h, congrArg Prod.snd h⟩
        obtain ⟨hs1, hw1⟩ := refreshOne_effects h1
        obtain ⟨hs2, hw2⟩ := ih h2
        refine ⟨cacheStepOK_trans hs1 hs2, ?_⟩
        intro ch hch
        rcases List.mem_append.mp hch with h1m | h2m
        · rw [hw1 ch h1m]
          exact List.mem_cons_self p rest
        · exact List.mem_cons_of_mem p (hw2 ch h2m)

theorem loaderRefresh_effects {fs : Fs} {st : LoaderState}
    {chs : List Change} {st' : LoaderState}
    (h : loaderRefresh fs st = some (chs, st')) :
    st'.watchedPaths = st.watchedPaths ∧
    st'.inputPathConfigFiles = st.inputPathConfigFiles ∧
    CacheStepOK st.loadedConfigFiles st'.loadedConfigFiles ∧
    ∀ ch ∈ chs, ch.watchedPath ∈ st.watchedPaths := by
  rw [loaderRefresh] at h
  cases hl : refreshLoop fs st.inputPathConfigFiles st.loadedConfigFiles
    st.watchedPaths with
  | none => rw [hl] at h; simp at h
  | some cm =>
    obtain ⟨chs1, m1⟩ := cm
    rw [hl] at h
    injection h with h
    obtain ⟨rfl, rfl⟩ : _ = chs ∧ _ = st' :=
      ⟨congrArg Prod.fst h, congrArg Prod.snd h⟩
    obtain ⟨hs, hw⟩ := refreshLoop_effects hl
    exact ⟨rfl, rfl, hs, hw⟩

/-- Every host call only appends to or updates the cache in place. -/
theorem runLoaderOp_cacheStep {fs : Fs} {op : LoaderOp} {st : LoaderState}
    {rs : List ConfigPtr} {st' : LoaderState}
    (h : runLoaderOp fs op st = some (rs, st')) :
    CacheStepOK st.loadedConfigFiles st'.loadedConfigFiles := by
  cases op with
  | loadPath s =>
    rw [runLoaderOp] at h
    cases h0 : load_for_file_path fs st s with
    | none => rw [h0] at h; simp at h
    | some r0 =>
      obtain ⟨r1, st1⟩ := r0
      simp only [h0, Option.map_some'] at h
      injection h with h
      obtain ⟨rfl, rfl⟩ : _ = rs ∧ st1 = st' :=
        ⟨congrArg Prod.fst h, congrArg Prod.snd h⟩
      exact (load_for_file_path_effects h0).2
  | loadLint f =>
    rw [runLoaderOp] at h
    cases h0 : load_for_file_lint fs st f with
    | none => rw [h0] at h; simp at h
    | some r0 =>
      obtain ⟨r1, st1⟩ := r0
      simp only [h0, Option.map_some'] at h
      injection h with h
      obtain ⟨rfl, rfl⟩ : _ = rs ∧ st1 = st' :=
        ⟨congrArg Prod.fst h, congrArg Prod.snd h⟩
      exact (load_for_file_lint_effects h0).2
  | loadConfigFile p =>
    rw [runLoaderOp] at h
    cases h0 : load_config_file fs st p with
    | none => rw [h0] at h; simp at h
    | some r0 =>
      obtain ⟨r1, st1⟩ := r0
      simp only [h0, Option.map_some'] at h
      injection h with h
      obtain ⟨rfl, rfl⟩ : _ = rs ∧ st1 = st' :=
        ⟨congrArg Prod.fst h, congrArg Prod.snd h⟩
      exact (load_config_file_effects h0).2.2
  | refresh =>
    rw [runLoaderOp] at h
    cases h0 : loaderRefresh fs st with
    | none => rw [h0] at h; simp at h
    | some r0 =>
      obtain ⟨chs, st1⟩ := r0
      simp only [h0, Option.map_some'] at h
      injection h with h
      obtain ⟨rfl, rfl⟩ : _ = rs ∧ st1 = st' :=
        ⟨congrArg Prod.fst h, congrArg Prod.snd h⟩
      exact (loaderRefresh_effects h0).2.2.1

/-! ## The detector's hit step -/

theorem lookupPair_mem {m : Cache} {p : CanonPath} {i : Nat}
    {e : LoadedEntry} (h : lookupPair m p = some (i, e)) : (p, e) ∈ m :=
  List.getElem?_mem (lookupPair_getElem? h)

theorem set_append_last (m : Cache) (x y : CanonPath × LoadedEntry) :
    (m ++ [x]).set m.length y = m ++ [y] := by
  induction m with
  | nil => rfl
  | cons a rest ih =>
    show a :: ((rest ++ [x]).set rest.length y) = a :: (rest ++ [y])
    rw [ih]

theorem setEntryAt_append_last (m : Cache) (p : CanonPath)
    (x e2 : LoadedEntry) :
    setEntryAt (m ++ [(p, x)]) m.length e2 = m ++ [(p, e2)] := by
  rw [setEntryAt, List.getElem?_concat_length]
  exact set_append_last m (p, x) (p, e2)

theorem detHit_traces (acc : DetAcc) (dir : CanonPath) (nm : String)
    (b : FileContent) :
    (detHit acc dir nm b).entered = acc.entered ∧
    (detHit acc dir nm b).lookups = acc.lookups := by
  simp only [detHit]
  split
  · exact ⟨rfl, rfl⟩
  · exact ⟨rfl, rfl⟩

theorem detHit_found (acc : DetAcc) (dir : CanonPath) (nm : String)
    (b : FileContent) :
    (detHit acc dir nm b).found =
      some ((emplaceDefault acc.cache (nm :: dir)).1, nm :: dir) := by
  simp only [detHit]
  split
  · rfl
  · rfl

theorem detHit_didChange (acc : DetAcc) (dir : CanonPath) (nm : String)
    (b : FileContent) :
    ((detHit acc dir nm b).didChange = true ↔
      ¬(some (nm :: dir) = acc.watch.configFilePath ∧
        b = (emplaceDefault acc.cache (nm :: dir)).2.2.1.fileContent)) := by
  simp only [detHit]
  split
  · rename_i h
    exact ⟨fun _ => h, fun _ => rfl⟩
  · rename_i h
    rw [not_not] at h
    exact ⟨fun hf => absurd hf (by simp), fun hnp => absurd h hnp⟩

theorem detHit_watch (acc : DetAcc) (dir : CanonPath) (nm : String)
    (b : FileContent) :
    (detHit acc dir nm b).watch =
      (if (detHit acc dir nm b).didChange then
        { acc.watch with configFilePath := some (nm :: dir) }
      else acc.watch) := by
  simp only [detHit]
  split
  · simp
  · simp

/-- The `emplaceDefault` post-conditions. -/
theorem emplaceDefault_spec (m : Cache) (p : CanonPath) :
    (((emplaceDefault m p).2.1 = true ∧ lookupPair m p = none ∧
        (emplaceDefault m p).1 = m.length ∧
        (emplaceDefault m p).2.2.1 = defaultEntry ∧
        (emplaceDefault m p).2.2.2 = m ++ [(p, defaultEntry)]) ∨
      ((emplaceDefault m p).2.1 = false ∧
        lookupPair m p =
          some ((emplaceDefault m p).1, (emplaceDefault m p).2.2.1) ∧
        (emplaceDefault m p).2.2.2 = m)) := by
  rw [emplaceDefault]
  cases hl : lookupPair m p with
  | some ie =>
    obtain ⟨i, e⟩ := ie
    exact Or.inr ⟨rfl, rfl, rfl⟩
  | none => exact Or.inl ⟨rfl, rfl, rfl, rfl, rfl⟩

theorem detHit_cache (acc : DetAcc) (dir : CanonPath) (nm : String)
    (b : FileContent) (hwf : CacheWF acc.cache)
    (hwo : WatchOK acc.cache acc.watch) :
    CacheExtends acc.cache (detHit acc dir nm b).cache ∧
    KeysGrow acc.cache (detHit acc dir nm b).cache ∧
    (NodupKeys acc.cache → NodupKeys (detHit acc dir nm b).cache) ∧
    CacheWF (detHit acc dir nm b).cache ∧
    WatchOK (detHit acc dir nm b).cache (detHit acc dir nm b).watch := by
  have hspec := emplaceDefault_spec acc.cache (nm :: dir)
  simp only [detHit]
  split
  · rename_i hdc
    simp only
    rcases hspec with ⟨hins, hmiss, hi, he, hm1⟩ | ⟨hins, hfind, hm1⟩
    · -- fresh insertion: the appended default entry is immediately
      -- overwritten with content, path, and loaded json
      rw [hins, hi, he, hm1, if_pos rfl, setEntryAt_append_last]
      have hwfNew : EntryWF (nm :: dir,
          ⟨b, ((defaultEntry.config.reset).set_config_file_path
            (nm :: dir)).load_from_json b⟩) :=
        entryWF_reload (nm :: dir) b defaultEntry.config
      have hstep := @cacheStepOK_append _ _ ⟨b,
        ((defaultEntry.config.reset).set_config_file_path
          (nm :: dir)).load_from_json b⟩ hmiss hwfNew
      refine ⟨hstep.1, hstep.2.1, hstep.2.2.1, hstep.2.2.2 hwf, ?_⟩
      intro p hp
      injection hp with hp
      subst hp
      rw [lookupPair_isSome_iff, cacheKeys, List.map_append]
      simp
    · -- existing entry: reset keeps the recorded path, reload stores `b`
      rw [hins, hm1, if_neg (by simp)]
      have hmem := lookupPair_mem hfind
      have hpath :
          ((emplaceDefault acc.cache (nm :: dir)).2.2.1.config).configFilePath
            = some (nm :: dir) :=
        (hwf _ hmem).1
      have hkey : keyAt acc.cache (emplaceDefault acc.cache (nm :: dir)).1 =
          some (nm :: dir) := by
        rw [keyAt, lookupPair_getElem? hfind]
        rfl
      have hwfNew : EntryWF (nm :: dir,
          ⟨b, ((emplaceDefault acc.cache
            (nm :: dir)).2.2.1.config.reset).load_from_json b⟩) := by
        constructor
        · show ((emplaceDefault acc.cache
            (nm :: dir)).2.2.1.config.reset).configFilePath = _
          rw [Configuration.reset]
          exact hpath
        · rfl
      have hstep := cacheStepOK_setEntryAt hkey hwfNew
      refine ⟨hstep.1, hstep.2.1, hstep.2.2.1, hstep.2.2.2 hwf, ?_⟩
      intro p hp
      injection hp with hp
      subst hp
      rw [lookupPair_isSome_iff, cacheKeys_setEntryAt]
      exact lookupPair_isSome_iff.mp (by rw [hfind]; rfl)
  · rename_i hdc
    rw [not_not] at hdc
    simp only
    rcases hspec with ⟨hins, hmiss, hi, he, hm1⟩ | ⟨hins, hfind, hm1⟩
    · -- impossible: `did_change` is false only if the recorded path equals
      -- the hit path, and a recorded path is always a cache key
      exfalso
      have := hwo (nm :: dir) hdc.1.symm
      rw [hmiss] at this
      simp at this
    · rw [hm1]
      exact ⟨cacheExtends_refl _, keysGrow_refl _, id, hwf, hwo⟩


/-! ## The detector's name loop and directory walk -/

/-- Case analysis on one directory's name loop: either both names are
not-found and only the lookup trace grows, or some name was read
successfully and the hit step ran. -/
theorem detTryNames_cases {fs : Fs} {acc : DetAcc} {dir : CanonPath}
    {acc2 : DetAcc} (h : detTryNames fs acc dir = some acc2) :
    (noConfigDir fs dir ∧
      acc2 = { acc with lookups :=
        acc.lookups ++ [primaryName :: dir] ++ [secondaryName :: dir] }) ∨
    (∃ lk b, hitAt fs dir ∧
      fs.readFile (hitName fs dir :: dir) = .ok b ∧
      (lk = acc.lookups ++ [primaryName :: dir] ∨
        lk = acc.lookups ++ [primaryName :: dir] ++ [secondaryName :: dir]) ∧
      acc2 = detHit { acc with lookups := lk } dir (hitName fs dir) b) := by
  rw [detTryNames] at h
  cases h1 : fs.readFile (primaryName :: dir) with
  | ok b =>
    simp only [h1] at h
    injection h with h
    have hnm : hitName fs dir = primaryName := by
      simp [hitName, h1, ReadResult.okB]
    refine Or.inr ⟨acc.lookups ++ [primaryName :: dir], b, ?_, ?_, Or.inl rfl,
      ?_⟩
    · exact Or.inl (by rw [h1]; rfl)
    · rw [hnm]
      exact h1
    · rw [hnm]
      exact h.symm
  | otherError e => simp [h1] at h
  | notFound e1 =>
    simp only [h1] at h
    cases h2 : fs.readFile (secondaryName :: dir) with
    | ok b =>
      simp only [h2] at h
      injection h with h
      have hnm : hitName fs dir = secondaryName := by
        simp [hitName, h1, ReadResult.okB]
      refine Or.inr ⟨acc.lookups ++ [primaryName :: dir] ++
        [secondaryName :: dir], b,
        Or.inr ⟨by rw [h1]; rfl, by rw [h2]; rfl⟩, ?_, Or.inr rfl, ?_⟩
      · rw [hnm]
        exact h2
      · rw [hnm]
        exact h.symm
    | otherError e2 => simp [h2] at h
    | notFound e2 =>
      simp only [h2] at h
      injection h with h
      exact Or.inl ⟨⟨by rw [h1]; rfl, by rw [h2]; rfl⟩, h.symm⟩

theorem detVisit_found {fs : Fs} {dir : CanonPath} {acc : DetAcc}
    (h : acc.found.isSome = true) :
    detVisit fs dir acc = some { acc with entered := acc.entered ++ [dir] } := by
  rw [detVisit]
  simp only [h]
  rfl

theorem detVisit_notFound {fs : Fs} {dir : CanonPath} {acc : DetAcc}
    (h : acc.found = none) :
    detVisit fs dir acc =
      detTryNames fs { acc with entered := acc.entered ++ [dir] } dir := by
  rw [detVisit]
  simp only [h]
  rfl

theorem DetAcc.found_none_of_not_isSome {acc : DetAcc}
    (h : ¬acc.found.isSome = true) : acc.found = none := by
  cases hv : acc.found
  · rfl
  · rw [hv] at h
    simp at h

/-- Once a config is found, the rest of the walk only appends the visited
directories to the `enter_directory` trace. -/
theorem detWalk_after_found {fs : Fs} :
    ∀ (start : CanonPath) (acc : DetAcc), acc.found.isSome = true →
      detWalk fs start acc =
        some { acc with entered := acc.entered ++ start.tails } := by
  intro start
  induction start with
  | nil =>
    intro acc h
    rw [detWalk, detVisit_found h]
    rfl
  | cons x rest ih =>
    intro acc h
    simp only [detWalk, detVisit_found h]
    rw [ih _ (by simpa using h)]
    simp

/-- The walk visits exactly the ancestors of the start directory, in
order. -/
theorem detWalk_entered {fs : Fs} :
    ∀ {start : CanonPath} {acc acc2 : DetAcc},
      detWalk fs start acc = some acc2 →
      acc2.entered = acc.entered ++ start.tails := by
  intro start
  induction start with
  | nil =>
    intro acc acc2 h
    rw [detWalk] at h
    by_cases hf : acc.found.isSome = true
    · rw [detVisit_found hf] at h
      injection h with h
      subst h
      simp
    · rw [detVisit_notFound (DetAcc.found_none_of_not_isSome hf)] at h
      rcases detTryNames_cases h with ⟨_, rfl⟩ | ⟨lk, b, _, _, _, rfl⟩
      · simp
      · rw [(detHit_traces _ _ _ _).1]
        simp
  | cons x rest ih =>
    intro acc acc2 h
    rw [detWalk] at h
    by_cases hf : acc.found.isSome = true
    · rw [detVisit_found hf] at h
      simp only at h
      rw [ih h]
      simp
    · rw [detVisit_notFound (DetAcc.found_none_of_not_isSome hf)] at h
      cases h1 : detTryNames fs
          { acc with entered := acc.entered ++ [x :: rest] } (x :: rest) with
      | none => rw [h1] at h; simp at h
      | some acc1 =>
        rw [h1] at h
        simp only at h
        rcases detTryNames_cases h1 with ⟨_, rfl⟩ | ⟨lk, b, _, _, _, rfl⟩
        · rw [ih h]
          simp
        · rw [ih h, (detHit_traces _ _ _ _).1]
          simp

/-- If the walk ends without a hit, the watch, cache, and `did_change`
flag are untouched, and there was no previous hit either. -/
theorem detWalk_nohit {fs : Fs} :
    ∀ {start : CanonPath} {acc acc2 : DetAcc},
      detWalk fs start acc = some acc2 → acc2.found = none →
      acc.found = none ∧ acc2.watch = acc.watch ∧ acc2.cache = acc.cache ∧
        acc2.didChange = acc.didChange := by
  intro start
  induction start with
  | nil =>
    intro acc acc2 h h2
    rw [detWalk] at h
    by_cases hf : acc.found.isSome = true
    · rw [detVisit_found hf] at h
      injection h with h
      subst h
      simp only at h2
      rw [h2] at hf
      simp at hf
    · rw [detVisit_notFound (DetAcc.found_none_of_not_isSome hf)] at h
      rcases detTryNames_cases h with ⟨_, rfl⟩ | ⟨lk, b, _, _, _, rfl⟩
      · exact ⟨DetAcc.found_none_of_not_isSome hf, rfl, rfl, rfl⟩
      · rw [detHit_found] at h2
        simp at h2
  | cons x rest ih =>
    intro acc acc2 h h2
    rw [detWalk] at h
    by_cases hf : acc.found.isSome = true
    · rw [detVisit_found hf] at h
      simp only at h
      obtain ⟨h3, _, _, _⟩ := ih h h2
      simp only at h3
      rw [h3] at hf
      simp at hf
    · have hfn := DetAcc.found_none_of_not_isSome hf
      rw [detVisit_notFound hfn] at h
      cases h1 : detTryNames fs
          { acc with entered := acc.entered ++ [x :: rest] } (x :: rest) with
      | none => rw [h1] at h; simp at h
      | some acc1 =>
        rw [h1] at h
        simp only at h
        rcases detTryNames_cases h1 with ⟨_, rfl⟩ | ⟨lk, b, _, _, _, rfl⟩
        · obtain ⟨_, hw, hc, hd⟩ := ih h h2
          exact ⟨hfn, hw, hc, hd⟩
        · obtain ⟨h3, _, _, _⟩ := ih h h2
          rw [detHit_found] at h3
          simp at h3


/-- Characterization of a walk that starts without a hit and ends with
one: the hit happened at some ancestor, reading the hit path succeeded,
and the `did_change` flag and resulting watch are those computed by the
hit step against the walk's initial watch and cache. -/
theorem detWalk_hit {fs : Fs} :
    ∀ {start : CanonPath} {acc acc2 : DetAcc},
      detWalk fs start acc = some acc2 → acc.found = none →
      ∀ {i : Nat} {cp : CanonPath}, acc2.found = some (i, cp) →
      ∃ t b, t <:+ start ∧ hitAt fs t ∧ cp = hitName fs t :: t ∧
        fs.readFile cp = .ok b ∧
        i = (emplaceDefault acc.cache cp).1 ∧
        (acc2.didChange = true ↔
          ¬(some cp = acc.watch.configFilePath ∧
            b = (emplaceDefault acc.cache cp).2.2.1.fileContent)) ∧
        acc2.watch = (if acc2.didChange then
          { acc.watch with configFilePath := some cp } else acc.watch) := by
  intro start
  induction start with
  | nil =>
    intro acc acc2 h hn i cp h2
    rw [detWalk, detVisit_notFound hn] at h
    rcases detTryNames_cases h with ⟨_, rfl⟩ | ⟨lk, b, hhit, hread, _, rfl⟩
    · simp only at h2
      rw [hn] at h2
      simp at h2
    · rw [detHit_found] at h2
      simp only at h2
      injection h2 with h2
      obtain ⟨rfl, rfl⟩ : (emplaceDefault acc.cache (hitName fs [] :: [])).1
          = i ∧ hitName fs [] :: [] = cp :=
        ⟨congrArg Prod.fst h2, congrArg Prod.snd h2⟩
      refine ⟨[], b, List.suffix_refl _, hhit, rfl, hread, rfl, ?_, ?_⟩
      · exact detHit_didChange _ _ _ _
      · exact detHit_watch _ _ _ _
  | cons x rest ih =>
    intro acc acc2 h hn i cp h2
    rw [detWalk, detVisit_notFound hn] at h
    cases h1 : detTryNames fs
        { acc with entered := acc.entered ++ [x :: rest] } (x :: rest) with
    | none => rw [h1] at h; simp at h
    | some acc1 =>
      rw [h1] at h
      simp only at h
      rcases detTryNames_cases h1 with ⟨_, rfl⟩ | ⟨lk, b, hhit, hread, _, rfl⟩
      · obtain ⟨t, b, hsuf, hrest⟩ := ih h (by simpa using hn) h2
        exact ⟨t, b, hsuf.trans (List.suffix_cons x rest), hrest⟩
      · have h3 : detWalk fs rest (detHit { acc with
            entered := acc.entered ++ [x :: rest], lookups := lk }
            (x :: rest) (hitName fs (x :: rest)) b) = some acc2 := h
        have hfs : (detHit { acc with
            entered := acc.entered ++ [x :: rest], lookups := lk }
            (x :: rest) (hitName fs (x :: rest)) b).found.isSome = true := by
          rw [detHit_found]
          rfl
        rw [detWalk_after_found rest _ hfs] at h3
        injection h3 with h3
        rw [← h3] at h2
        have h4 : (detHit { acc with
            entered := acc.entered ++ [x :: rest], lookups := lk }
            (x :: rest) (hitName fs (x :: rest)) b).found = some (i, cp) := h2
        rw [detHit_found] at h4
        injection h4 with h4
        obtain ⟨hi, hcp⟩ : (emplaceDefault acc.cache
            (hitName fs (x :: rest) :: (x :: rest))).1 = i ∧
            hitName fs (x :: rest) :: (x :: rest) = cp :=
          ⟨congrArg Prod.fst h4, congrArg Prod.snd h4⟩
        subst hcp
        refine ⟨x :: rest, b, List.suffix_refl _, hhit, rfl, hread, hi.symm,
          ?_, ?_⟩
        · rw [← h3]
          exact detHit_didChange _ _ _ _
        · rw [← h3]
          exact detHit_watch _ _ _ _

/-- The walk preserves the cache discipline and the watch/cache
invariants. -/
theorem detWalk_wf {fs : Fs} :
    ∀ {start : CanonPath} {acc acc2 : DetAcc},
      detWalk fs start acc = some acc2 →
      CacheWF acc.cache → WatchOK acc.cache acc.watch →
      CacheExtends acc.cache acc2.cache ∧ KeysGrow acc.cache acc2.cache ∧
        (NodupKeys acc.cache → NodupKeys acc2.cache) ∧
        CacheWF acc2.cache ∧ WatchOK acc2.cache acc2.watch := by
  intro start
  induction start with
  | nil =>
    intro acc acc2 h hwf hwo
    rw [detWalk] at h
    by_cases hf : acc.found.isSome = true
    · rw [detVisit_found hf] at h
      injection h with h
      subst h
      exact ⟨cacheExtends_refl _, keysGrow_refl _, id, hwf, hwo⟩
    · rw [detVisit_notFound (DetAcc.found_none_of_not_isSome hf)] at h
      rcases detTryNames_cases h with ⟨_, rfl⟩ | ⟨lk, b, _, _, _, rfl⟩
      · exact ⟨cacheExtends_refl _, keysGrow_refl _, id, hwf, hwo⟩
      · exact detHit_cache
          { acc with entered := acc.entered ++ [[]], lookups := lk }
          [] (hitName fs []) b hwf hwo
  | cons x rest ih =>
    intro acc acc2 h hwf hwo
    rw [detWalk] at h
    by_cases hf : acc.found.isSome = true
    · rw [detVisit_found hf] at h
      simp only at h
      exact @ih { acc with entered := acc.entered ++ [x :: rest] } acc2 h
        hwf hwo
    · rw [detVisit_notFound (DetAcc.found_none_of_not_isSome hf)] at h
      cases h1 : detTryNames fs
          { acc with entered := acc.entered ++ [x :: rest] } (x :: rest) with
      | none => rw [h1] at h; simp at h
      | some acc1 =>
        rw [h1] at h
        simp only at h
        rcases detTryNames_cases h1 with ⟨_, rfl⟩ | ⟨lk, b, _, _, _, rfl⟩
        · exact @ih { acc with
            entered := acc.entered ++ [x :: rest]
            lookups := acc.lookups ++ [primaryName :: (x :: rest)] ++
              [secondaryName :: (x :: rest)] } acc2 h hwf hwo
        · obtain ⟨he, hg, hnd, hwf2, hwo2⟩ := detHit_cache
            { acc with entered := acc.entered ++ [x :: rest], lookups := lk }
            (x :: rest) (hitName fs (x :: rest)) b hwf hwo
          obtain ⟨he2, hg2, hnd2, hwf3, hwo3⟩ :=
            @ih (detHit { acc with
              entered := acc.entered ++ [x :: rest]
              lookups := lk } (x :: rest) (hitName fs (x :: rest)) b) acc2 h
              hwf2 hwo2
          exact ⟨cacheExtends_trans he he2, keysGrow_trans hg hg2,
            fun hnd0 => hnd2 (hnd hnd0), hwf3, hwo3⟩

/-- Under `hitAt`, the name loop returns a hit on the hit path. -/
theorem detTryNames_hit {fs : Fs} {dir : CanonPath} (acc : DetAcc)
    (hhit : hitAt fs dir) :
    ∃ acc2, detTryNames fs acc dir = some acc2 ∧
      ∃ i, acc2.found = some (i, hitName fs dir :: dir) := by
  rcases hhit with hok | ⟨hnf, hok⟩
  · cases hr : fs.readFile (primaryName :: dir) with
    | notFound e => rw [hr] at hok; simp [ReadResult.okB] at hok
    | otherError e => rw [hr] at hok; simp [ReadResult.okB] at hok
    | ok b =>
      have hnm : hitName fs dir = primaryName := by
        simp [hitName, hr, ReadResult.okB]
      rw [detTryNames]
      simp only [hr]
      refine ⟨_, rfl, (emplaceDefault acc.cache (primaryName :: dir)).1, ?_⟩
      rw [hnm]
      exact detHit_found _ _ _ _
  · cases hr : fs.readFile (primaryName :: dir) with
    | ok b => rw [hr] at hnf; simp [ReadResult.notFoundB] at hnf
    | otherError e => rw [hr] at hnf; simp [ReadResult.notFoundB] at hnf
    | notFound e =>
      cases hr2 : fs.readFile (secondaryName :: dir) with
      | notFound e2 => rw [hr2] at hok; simp [ReadResult.okB] at hok
      | otherError e2 => rw [hr2] at hok; simp [ReadResult.okB] at hok
      | ok b =>
        have hnm : hitName fs dir = secondaryName := by
          simp [hitName, hr, ReadResult.okB]
        rw [detTryNames]
        simp only [hr, hr2]
        refine ⟨_, rfl,
          (emplaceDefault acc.cache (secondaryName :: dir)).1, ?_⟩
        rw [hnm]
        exact detHit_found _ _ _ _

/-- A walk that starts at a directory whose name loop hits finds that
hit. -/
theorem detWalk_hit_here {fs : Fs} {d : CanonPath} {acc : DetAcc}
    (hn : acc.found = none) (hhit : hitAt fs d) :
    ∃ acc2, detWalk fs d acc = some acc2 ∧
      ∃ i, acc2.found = some (i, hitName fs d :: d) := by
  cases d with
  | nil =>
    rw [detWalk, detVisit_notFound hn]
    exact detTryNames_hit _ hhit
  | cons x rest =>
    rw [detWalk, detVisit_notFound hn]
    obtain ⟨acc2, he, i, hf⟩ := detTryNames_hit
      { acc with entered := acc.entered ++ [x :: rest] } hhit
    rw [he]
    simp only
    rw [detWalk_after_found rest acc2 (by rw [hf]; rfl)]
    refine ⟨_, rfl, i, ?_⟩
    exact hf

/-- Walking from `start` down to an ancestor `d` with no configs strictly
below `d` reaches `d`'s name loop and finds the hit at `d`. -/
theorem detWalk_nearest {fs : Fs} {d : CanonPath} (hhit : hitAt fs d) :
    ∀ {start : CanonPath} {acc : DetAcc}, acc.found = none →
      d <:+ start →
      (∀ t, t <:+ start → d.length < t.length → noConfigDir fs t) →
      ∃ acc2, detWalk fs start acc = some acc2 ∧
        ∃ i, acc2.found = some (i, hitName fs d :: d) := by
  intro start
  induction start with
  | nil =>
    intro acc hn hsuf _hno
    have hd : d = [] := List.eq_nil_of_suffix_nil hsuf
    subst hd
    exact detWalk_hit_here hn hhit
  | cons x rest ih =>
    intro acc hn hsuf hno
    by_cases hd : d = x :: rest
    · subst hd
      exact detWalk_hit_here hn hhit
    · have hsuf2 : d <:+ rest := by
        rcases List.suffix_cons_iff.mp hsuf with h1 | h1
        · exact absurd h1 hd
        · exact h1
      have hnothis : noConfigDir fs (x :: rest) := by
        refine hno (x :: rest) (List.suffix_refl _) ?_
        have := hsuf2.length_le
        simp
        omega
      obtain ⟨hnp, hns⟩ := hnothis
      rw [detWalk, detVisit_notFound hn]
      rw [detTryNames]
      cases hr : fs.readFile (primaryName :: (x :: rest)) with
      | ok b =>
        exfalso
        rw [hr] at hnp
        simp [ReadResult.notFoundB] at hnp
      | otherError e =>
        exfalso
        rw [hr] at hnp
        simp [ReadResult.notFoundB] at hnp
      | notFound e =>
        simp only [hr]
        cases hr2 : fs.readFile (secondaryName :: (x :: rest)) with
        | ok b =>
          exfalso
          rw [hr2] at hns
          simp [ReadResult.notFoundB] at hns
        | otherError e2 =>
          exfalso
          rw [hr2] at hns
          simp [ReadResult.notFoundB] at hns
        | notFound e2 =>
          simp only [hr2]
          exact ih hn hsuf2 (fun t ht hlen =>
            hno t (ht.trans (List.suffix_cons x rest)) hlen)


/-- Every config-name lookup the walk performs is in an ancestor of the
start directory, and never in an ancestor nearer the root than the hit
directory: after the first hit, no further lookups happen. -/
theorem detWalk_lookups {fs : Fs} :
    ∀ {start : CanonPath} {acc acc2 : DetAcc},
      detWalk fs start acc = some acc2 → acc.found = none →
      ∃ newlk, acc2.lookups = acc.lookups ++ newlk ∧
        ∀ q ∈ newlk, ∃ nm t, (nm = primaryName ∨ nm = secondaryName) ∧
          t <:+ start ∧ q = nm :: t ∧
          (∀ i cp, acc2.found = some (i, cp) → cp.length ≤ t.length + 1) := by
  intro start
  induction start with
  | nil =>
    intro acc acc2 h hn
    rw [detWalk, detVisit_notFound hn] at h
    rcases detTryNames_cases h with ⟨_, rfl⟩ | ⟨lk, b, _, _, hlk, rfl⟩
    · refine ⟨[primaryName :: [], secondaryName :: []], by simp, ?_⟩
      intro q hq
      have hfound : ({ acc with
          entered := acc.entered ++ [[]]
          lookups := acc.lookups ++ [primaryName :: []] ++
            [secondaryName :: []] } : DetAcc).found = none := hn
      have hb : ∀ i cp, ({ acc with
          entered := acc.entered ++ [[]]
          lookups := acc.lookups ++ [primaryName :: []] ++
            [secondaryName :: []] } : DetAcc).found = some (i, cp) →
          cp.length ≤ ([] : CanonPath).length + 1 := by
        intro i cp hic
        rw [hfound] at hic
        simp at hic
      simp only [List.mem_cons, List.mem_singleton] at hq
      rcases hq with rfl | hq
      · exact ⟨primaryName, [], Or.inl rfl, List.suffix_refl _, rfl, hb⟩
      · rcases hq with rfl | hq
        · exact ⟨secondaryName, [], Or.inr rfl, List.suffix_refl _, rfl, hb⟩
        · simp at hq
    · have hl : (detHit { acc with
          entered := acc.entered ++ [[]]
          lookups := lk } [] (hitName fs []) b).lookups = lk :=
        (detHit_traces _ _ _ _).2
      have hf := detHit_found { acc with
        entered := acc.entered ++ [[]]
        lookups := lk } [] (hitName fs []) b
      have hb : ∀ i cp, (detHit { acc with
          entered := acc.entered ++ [[]]
          lookups := lk } [] (hitName fs []) b).found = some (i, cp) →
          cp.length ≤ ([] : CanonPath).length + 1 := by
        intro i cp hic
        rw [hf] at hic
        injection hic with hic
        have hcp : hitName fs [] :: ([] : CanonPath) = cp :=
          congrArg Prod.snd hic
        rw [← hcp]
        simp
      rcases hlk with hlke | hlke
      · refine ⟨[primaryName :: []], ?_, ?_⟩
        · show (detHit { acc with
            entered := acc.entered ++ [[]]
            lookups := lk } [] (hitName fs []) b).lookups = _
          rw [hl, hlke]
        · intro q hq
          simp only [List.mem_singleton] at hq
          subst hq
          exact ⟨primaryName, [], Or.inl rfl, List.suffix_refl _, rfl, hb⟩
      · refine ⟨[primaryName :: [], secondaryName :: []], ?_, ?_⟩
        · show (detHit { acc with
            entered := acc.entered ++ [[]]
            lookups := lk } [] (hitName fs []) b).lookups = _
          rw [hl, hlke]
          simp
        · intro q hq
          simp only [List.mem_cons, List.mem_singleton] at hq
          rcases hq with rfl | hq
          · exact ⟨primaryName, [], Or.inl rfl, List.suffix_refl _, rfl, hb⟩
          · rcases hq with rfl | hq
            · exact ⟨secondaryName, [], Or.inr rfl, List.suffix_refl _, rfl,
                hb⟩
            · simp at hq
  | cons x rest ih =>
    intro acc acc2 h hn
    rw [detWalk, detVisit_notFound hn] at h
    cases h1 : detTryNames fs
        { acc with entered := acc.entered ++ [x :: rest] } (x :: rest) with
    | none => rw [h1] at h; simp at h
    | some acc1 =>
      rw [h1] at h
      simp only at h
      rcases detTryNames_cases h1 with ⟨_, rfl⟩ | ⟨lk, b, _, _, hlk, rfl⟩
      · obtain ⟨newlk2, heq, hbound⟩ := ih h (by simpa using hn)
        refine ⟨[primaryName :: (x :: rest), secondaryName :: (x :: rest)] ++
          newlk2, ?_, ?_⟩
        · rw [heq]
          show _ ++ [primaryName :: (x :: rest)] ++
            [secondaryName :: (x :: rest)] ++ newlk2 = _
          simp
        · intro q hq
          have hcase : ∀ i cp, acc2.found = some (i, cp) →
              cp.length ≤ (x :: rest).length + 1 := by
            intro i cp hic
            obtain ⟨t, b2, hsuf, _, hcp, _⟩ := detWalk_hit h
              (by simpa using hn) hic
            rw [hcp]
            have := hsuf.length_le
            simp
            omega
          rcases List.mem_append.mp hq with hq | hq
          · simp only [List.mem_cons, List.mem_singleton] at hq
            rcases hq with rfl | hq
            · exact ⟨primaryName, x :: rest, Or.inl rfl, List.suffix_refl _,
                rfl, hcase⟩
            · rcases hq with rfl | hq
              · exact ⟨secondaryName, x :: rest, Or.inr rfl,
                  List.suffix_refl _, rfl, hcase⟩
              · simp at hq
          · obtain ⟨nm, t, hnm, hsuf, hqe, hb⟩ := hbound q hq
            exact ⟨nm, t, hnm, hsuf.trans (List.suffix_cons x rest), hqe, hb⟩
      · have h3 : detWalk fs rest (detHit { acc with
            entered := acc.entered ++ [x :: rest], lookups := lk }
            (x :: rest) (hitName fs (x :: rest)) b) = some acc2 := h
        have hfs : (detHit { acc with
            entered := acc.entered ++ [x :: rest], lookups := lk }
            (x :: rest) (hitName fs (x :: rest)) b).found.isSome = true := by
          rw [detHit_found]
          rfl
        rw [detWalk_after_found rest _ hfs] at h3
        injection h3 with h3
        have hl : (detHit { acc with
            entered := acc.entered ++ [x :: rest], lookups := lk }
            (x :: rest) (hitName fs (x :: rest)) b).lookups = lk :=
          (detHit_traces _ _ _ _).2
        have hlook2 : acc2.lookups = lk := by
          rw [← h3]
          exact hl
        have hfound2 : acc2.found = some ((emplaceDefault acc.cache
            (hitName fs (x :: rest) :: (x :: rest))).1,
            hitName fs (x :: rest) :: (x :: rest)) := by
          rw [← h3]
          exact detHit_found _ _ _ _
        have hcase : ∀ i cp, acc2.found = some (i, cp) →
            cp.length ≤ (x :: rest).length + 1 := by
          intro i cp hic
          rw [hfound2] at hic
          injection hic with hic
          have hcp : hitName fs (x :: rest) :: (x :: rest) = cp :=
            congrArg Prod.snd hic
          rw [← hcp]
          simp
        rcases hlk with hlke | hlke
        · refine ⟨[primaryName :: (x :: rest)], ?_, ?_⟩
          · rw [hlook2, hlke]
          · intro q hq
            simp only [List.mem_singleton] at hq
            subst hq
            exact ⟨primaryName, x :: rest, Or.inl rfl, List.suffix_refl _,
              rfl, hcase⟩
        · refine ⟨[primaryName :: (x :: rest), secondaryName :: (x :: rest)],
            ?_, ?_⟩
          · rw [hlook2, hlke]
            simp
          · intro q hq
            simp only [List.mem_cons, List.mem_singleton] at hq
            rcases hq with rfl | hq
            · exact ⟨primaryName, x :: rest, Or.inl rfl, List.suffix_refl _,
                rfl, hcase⟩
            · rcases hq with rfl | hq
              · exact ⟨secondaryName, x :: rest, Or.inr rfl,
                  List.suffix_refl _, rfl, hcase⟩
              · simp at hq


/-! ## `get_config_file` level facts -/

theorem get_config_file_abort {fs : Fs} {m : Cache} {w : DetectorWatch}
    {e : String} (hcr : fs.canonicalize w.watchedFilePath = .error e) :
    get_config_file fs m w = none := by
  rw [get_config_file, hcr]

/-- When the walk finds no config: `did_change` is exactly "a config path
was recorded", and the recorded path is cleared. -/
theorem get_config_file_nohit {fs : Fs} {m : Cache} {w : DetectorWatch}
    {r : GetConfigFileResult} (h : get_config_file fs m w = some r)
    (hf : r.found = none) :
    (r.didChange = true ↔ w.configFilePath.isSome = true) ∧
    r.watch.configFilePath = none ∧ r.cache = m := by
  rw [get_config_file] at h
  cases hcr : fs.canonicalize w.watchedFilePath with
  | error e => rw [hcr] at h; simp at h
  | ok existing missing =>
    simp only [hcr] at h
    cases hW : detWalk fs (walkStartDirectory existing missing)
        ⟨none, false, w, m, [], []⟩ with
    | none => rw [hW] at h; simp at h
    | some acc =>
      simp only [hW] at h
      cases haf : acc.found with
      | some fc =>
        simp only [haf] at h
        injection h with h
        rw [← h] at hf
        simp at hf
      | none =>
        simp only [haf] at h
        injection h with h
        obtain ⟨_, hw, hc, _⟩ := detWalk_nohit hW haf
        rw [← h]
        simp only
        rw [hw, hc]
        exact ⟨by trivial, by trivial, by trivial⟩

/-- When the walk finds a config at path `cp`: reading `cp` succeeded, and
`did_change` is exactly "`cp` differs from the recorded path or the fresh
bytes differ from the (possibly just-emplaced) entry's stored bytes". -/
theorem get_config_file_hit {fs : Fs} {m : Cache} {w : DetectorWatch}
    {r : GetConfigFileResult} {i : Nat} {cp : CanonPath}
    (h : get_config_file fs m w = some r) (hf : r.found = some (i, cp)) :
    ∃ b, fs.readFile cp = .ok b ∧
      (r.didChange = true ↔ ¬(some cp = w.configFilePath ∧
        b = (emplaceDefault m cp).2.2.1.fileContent)) ∧
      r.watch = (if r.didChange then { w with configFilePath := some cp }
        else w) := by
  rw [get_config_file] at h
  cases hcr : fs.canonicalize w.watchedFilePath with
  | error e => rw [hcr] at h; simp at h
  | ok existing missing =>
    simp only [hcr] at h
    cases hW : detWalk fs (walkStartDirectory existing missing)
        ⟨none, false, w, m, [], []⟩ with
    | none => rw [hW] at h; simp at h
    | some acc =>
      simp only [hW] at h
      cases haf : acc.found with
      | none =>
        simp only [haf] at h
        injection h with h
        rw [← h] at hf
        simp at hf
      | some fc =>
        simp only [haf] at h
        injection h with h
        rw [← h] at hf
        simp only at hf
        injection hf with hf
        subst hf
        obtain ⟨t, b, _, _, _, hread, _, hdc, hwatch⟩ :=
          detWalk_hit hW rfl haf
        refine ⟨b, hread, ?_, ?_⟩
        · rw [← h]
          exact hdc
        · rw [← h]
          exact hwatch

/-- `get_config_file` preserves the cache discipline and both
invariants. -/
theorem get_config_file_wf {fs : Fs} {m : Cache} {w : DetectorWatch}
    {r : GetConfigFileResult} (h : get_config_file fs m w = some r)
    (hwf : CacheWF m) (hwo : WatchOK m w) :
    CacheExtends m r.cache ∧ KeysGrow m r.cache ∧
      (NodupKeys m → NodupKeys r.cache) ∧ CacheWF r.cache ∧
      WatchOK r.cache r.watch := by
  rw [get_config_file] at h
  cases hcr : fs.canonicalize w.watchedFilePath with
  | error e => rw [hcr] at h; simp at h
  | ok existing missing =>
    simp only [hcr] at h
    cases hW : detWalk fs (walkStartDirectory existing missing)
        ⟨none, false, w, m, [], []⟩ with
    | none => rw [hW] at h; simp at h
    | some acc =>
      simp only [hW] at h
      obtain ⟨he, hg, hnd, hwf2, hwo2⟩ := detWalk_wf hW hwf hwo
      cases haf : acc.found with
      | some fc =>
        simp only [haf] at h
        injection h with h
        rw [← h]
        exact ⟨he, hg, hnd, hwf2, hwo2⟩
      | none =>
        simp only [haf] at h
        injection h with h
        rw [← h]
        refine ⟨he, hg, hnd, hwf2, ?_⟩
        intro p hp
        simp at hp

/-- Resolution through `get_config_file` under a nearest-hit hypothesis:
the hit at the nearest config-bearing ancestor wins, every directory from
the start to the root is entered, and no name lookup happens nearer the
root than the hit directory. -/
theorem get_config_file_nearest {fs : Fs} {m : Cache} {w : DetectorWatch}
    {existing : CanonPath} {missing : List String} {d : CanonPath}
    (hcr : fs.canonicalize w.watchedFilePath = .ok existing missing)
    (hsuf : d <:+ walkStartDirectory existing missing)
    (hhit : hitAt fs d)
    (hno : ∀ t, t <:+ walkStartDirectory existing missing →
      d.length < t.length → noConfigDir fs t) :
    ∃ r, get_config_file fs m w = some r ∧
      (∃ i, r.found = some (i, hitName fs d :: d)) ∧
      r.entered = (walkStartDirectory existing missing).tails ∧
      ∀ q ∈ r.lookups, ∃ nm t, (nm = primaryName ∨ nm = secondaryName) ∧
        t <:+ walkStartDirectory existing missing ∧ q = nm :: t ∧
        d.length < t.length + 1 := by
  obtain ⟨acc2, hW, i, hfound⟩ := @detWalk_nearest fs d hhit
    (walkStartDirectory existing missing) ⟨none, false, w, m, [], []⟩ rfl
    hsuf hno
  have hent := detWalk_entered hW
  obtain ⟨newlk, hlk, hlkb⟩ := detWalk_lookups hW rfl
  refine ⟨⟨some (i, hitName fs d :: d), acc2.didChange, acc2.watch,
    acc2.cache, acc2.entered, acc2.lookups⟩, ?_, ⟨i, rfl⟩, ?_, ?_⟩
  · rw [get_config_file]
    simp only [hcr, hW, hfound]
  · rw [hent]
    rfl
  · intro q hq
    simp only at hq
    rw [hlk] at hq
    have hq2 : q ∈ newlk := by
      rcases List.mem_append.mp hq with h1 | h1
      · simp at h1
      · exact h1
    obtain ⟨nm, t, hnm, hsuf2, hqe, hb⟩ := hlkb q hq2
    refine ⟨nm, t, hnm, hsuf2, hqe, ?_⟩
    have := hb i (hitName fs d :: d) hfound
    simp at this
    omega

/-! ## Loader search: shadowing facts -/

theorem tryConfigName_notFound {fs : Fs} {m : Cache} {ck : Bool}
    {dir : CanonPath} {nm : String}
    (hread : (fs.readFile (nm :: dir)).notFoundB = true)
    (hmiss : ck = true → lookupPair m (nm :: dir) = none) :
    tryConfigName fs m ck dir nm = none := by
  cases hr : fs.readFile (nm :: dir) with
  | ok b => rw [hr] at hread; simp [ReadResult.notFoundB] at hread
  | otherError e => rw [hr] at hread; simp [ReadResult.notFoundB] at hread
  | notFound e =>
    rw [tryConfigName]
    cases ck with
    | false =>
      rw [if_neg Bool.false_ne_true, readConfigFile, hr]
    | true =>
      rw [if_pos rfl, hmiss rfl, readConfigFile, hr]

/-- If the primary name is readable in `dir` (or already cached), the
loader's per-directory probe resolves to the primary path. -/
theorem tryConfigNames_primary {fs : Fs} {m : Cache} {ck : Bool}
    {dir : CanonPath} {b : FileContent}
    (hread : fs.readFile (primaryName :: dir) = .ok b) :
    ∃ f, tryConfigNames fs m ck dir = some f ∧
      f.path = some (primaryName :: dir) := by
  rw [tryConfigNames, tryConfigName]
  cases ck with
  | true =>
    rw [if_pos rfl]
    cases hl : lookupPair m (primaryName :: dir) with
    | some ie =>
      obtain ⟨i, e⟩ := ie
      exact ⟨_, rfl, rfl⟩
    | none =>
      rw [readConfigFile, hread]
      exact ⟨_, rfl, rfl⟩
  | false =>
    rw [if_neg Bool.false_ne_true, readConfigFile, hread]
    exact ⟨_, rfl, rfl⟩

/-- Skipping config-free (and cache-free) levels of the loader's upward
search. -/
theorem find_config_file_skip {fs : Fs} {m : Cache} {ck : Bool}
    {d : CanonPath} :
    ∀ {start : CanonPath}, d <:+ start →
      (∀ t, t <:+ start → d.length < t.length → noConfigDir fs t ∧
        lookupPair m (primaryName :: t) = none ∧
        lookupPair m (secondaryName :: t) = none) →
      find_config_file_in_directory_and_ancestors fs m ck start =
        find_config_file_in_directory_and_ancestors fs m ck d := by
  intro start
  induction start with
  | nil =>
    intro hsuf _
    rw [List.eq_nil_of_suffix_nil hsuf]
  | cons x rest ih =>
    intro hsuf hno
    by_cases hd : d = x :: rest
    · rw [hd]
    · have hsuf2 : d <:+ rest := by
        rcases List.suffix_cons_iff.mp hsuf with h1 | h1
        · exact absurd h1 hd
        · exact h1
      obtain ⟨⟨hnp, hns⟩, hm1, hm2⟩ := hno (x :: rest) (List.suffix_refl _)
        (by
          have := hsuf2.length_le
          simp
          omega)
      rw [find_config_file_in_directory_and_ancestors]
      have h1 : tryConfigNames fs m ck (x :: rest) = none := by
        rw [tryConfigNames, tryConfigName_notFound hnp (fun _ => hm1),
          tryConfigName_notFound hns (fun _ => hm2)]
        rfl
      rw [h1]
      exact ih hsuf2 (fun t ht hlen =>
        hno t (ht.trans (List.suffix_cons x rest)) hlen)

/-- At a directory where the primary name is readable, the loader's search
returns the primary path. -/
theorem find_config_file_at_primary {fs : Fs} {m : Cache} {ck : Bool}
    {d : CanonPath} {b : FileContent}
    (hread : fs.readFile (primaryName :: d) = .ok b) :
    (find_config_file_in_directory_and_ancestors fs m ck d).path =
      some (primaryName :: d) := by
  obtain ⟨f, hf, hp⟩ := @tryConfigNames_primary fs m ck d b hread
  cases d with
  | nil =>
    rw [find_config_file_in_directory_and_ancestors, hf]
    exact hp
  | cons x rest =>
    rw [find_config_file_in_directory_and_ancestors, hf]
    exact hp

/-! ## Detector refresh and host calls -/

/-- Unfolding one step of the detector's refresh loop: a change for the
head watch is emitted exactly when its `get_config_file` reported
`did_change`. -/
theorem detRefreshLoop_cons (fs : Fs) (m : Cache) (w : DetectorWatch)
    (ws : List DetectorWatch) :
    detRefreshLoop fs m (w :: ws) =
      match get_config_file fs m w with
      | none => none
      | some r =>
        match detRefreshLoop fs r.cache ws with
        | none => none
        | some (chs, ws2, cache2) =>
          ((if r.didChange then
              [⟨w.watchedFilePath,
                match r.found with
                | some (i, _) => ConfigPtr.entry i
                | none => ConfigPtr.defaultPtr⟩]
            else []) ++ chs, r.watch :: ws2, cache2) := by
  rw [detRefreshLoop]

theorem detRefreshLoop_wf {fs : Fs} :
    ∀ {ws : List DetectorWatch} {m : Cache} {chs : List Change}
      {ws2 : List DetectorWatch} {m2 : Cache},
      detRefreshLoop fs m ws = some (chs, ws2, m2) →
      CacheWF m → (∀ w ∈ ws, WatchOK m w) →
      CacheExtends m m2 ∧ KeysGrow m m2 ∧ (NodupKeys m → NodupKeys m2) ∧
        CacheWF m2 ∧ ∀ w2 ∈ ws2, WatchOK m2 w2 := by
  intro ws
  induction ws with
  | nil =>
    intro m chs ws2 m2 h hwf hwo
    rw [detRefreshLoop] at h
    injection h with h
    obtain ⟨rfl, h2⟩ : _ = chs ∧ _ = (ws2, m2) :=
      ⟨congrArg Prod.fst h, congrArg Prod.snd h⟩
    obtain ⟨rfl, rfl⟩ : _ = ws2 ∧ _ = m2 :=
      ⟨congrArg Prod.fst h2, congrArg Prod.snd h2⟩
    refine ⟨cacheExtends_refl _, keysGrow_refl _, id, hwf, ?_⟩
    intro w2 hw2
    simp at hw2
  | cons w ws ih =>
    intro m chs ws2 m2 h hwf hwo
    rw [detRefreshLoop] at h
    cases h1 : get_config_file fs m w with
    | none => rw [h1] at h; simp at h
    | some r =>
      simp only [h1] at h
      cases h2 : detRefreshLoop fs r.cache ws with
      | none => rw [h2] at h; simp at h
      | some cwm =>
        obtain ⟨chs1, ws1, m1⟩ := cwm
        simp only [h2] at h
        injection h with h
        obtain ⟨rfl, h3⟩ : _ = chs ∧ _ = (ws2, m2) :=
          ⟨congrArg Prod.fst h, congrArg Prod.snd h⟩
        obtain ⟨rfl, rfl⟩ : _ = ws2 ∧ _ = m2 :=
          ⟨congrArg Prod.fst h3, congrArg Prod.snd h3⟩
        obtain ⟨he1, hg1, hnd1, hwf1, hwo1⟩ := get_config_file_wf h1 hwf
          (hwo w (List.mem_cons_self w ws))
        obtain ⟨he2, hg2, hnd2, hwf2, hwo2⟩ := ih h2 hwf1 (by
          intro w2 hw2
          intro p hp
          exact hg1 p (hwo w2 (List.mem_cons_of_mem w hw2) p hp))
        refine ⟨cacheExtends_trans he1 he2, keysGrow_trans hg1 hg2,
          fun h0 => hnd2 (hnd1 h0), hwf2, ?_⟩
        intro w2 hw2
        rcases List.mem_cons.mp hw2 with rfl | hw2
        · intro p hp
          exact hg2 p (hwo1 p hp)
        · exact hwo2 w2 hw2

/-- If canonicalization of any registered watch fails, the detector's
refresh aborts (`QLJS_UNIMPLEMENTED`). -/
theorem detRefreshLoop_abort {fs : Fs} {w : DetectorWatch} {e : String}
    (herr : fs.canonicalize w.watchedFilePath = .error e) :
    ∀ {ws : List DetectorWatch} {m : Cache}, w ∈ ws →
      detRefreshLoop fs m ws = none := by
  intro ws
  induction ws with
  | nil =>
    intro m hmem
    simp at hmem
  | cons w0 ws ih =>
    intro m hmem
    rw [detRefreshLoop]
    rcases List.mem_cons.mp hmem with rfl | hmem
    · rw [get_config_file_abort herr]
    · cases h1 : get_config_file fs m w0 with
      | none => rfl
      | some r =>
        simp only [h1]
        rw [ih hmem]

theorem detRefresh_abort {fs : Fs} {st : DetectorState} {w : DetectorWatch}
    {e : String} (hmem : w ∈ st.watches)
    (herr : fs.canonicalize w.watchedFilePath = .error e) :
    detRefresh fs st = none := by
  rw [detRefresh, detRefreshLoop_abort herr hmem]

/-- Both detector host calls preserve the detector invariant. -/
theorem runDetectorOp_wf {fs : Fs} {op : DetectorOp} {st st' : DetectorState}
    (h : runDetectorOp fs op st = some st') (hwf : DetectorWF st) :
    DetectorWF st' := by
  cases op with
  | getConfigForFile p =>
    rw [runDetectorOp] at h
    cases h1 : get_config_for_file fs st p with
    | none => rw [h1] at h; simp at h
    | some rs =>
      obtain ⟨ptr, st1⟩ := rs
      simp only [h1, Option.map_some'] at h
      injection h with h
      subst h
      rw [get_config_for_file] at h1
      cases h2 : get_config_file fs st.loadedConfigFiles
          ⟨p, none⟩ with
      | none => rw [h2] at h1; simp at h1
      | some r =>
        simp only [h2] at h1
        injection h1 with h1
        obtain ⟨_, rfl⟩ : _ = ptr ∧ _ = st1 :=
          ⟨congrArg Prod.fst h1, congrArg Prod.snd h1⟩
        obtain ⟨_, hg, _, hwf2, hwo2⟩ := get_config_file_wf h2 hwf.1
          (by intro q hq; simp at hq)
        refine ⟨hwf2, ?_⟩
        intro w2 hw2
        rcases List.mem_append.mp hw2 with hw2 | hw2
        · intro q hq
          exact hg q (hwf.2 w2 hw2 q hq)
        · simp at hw2
          subst hw2
          exact hwo2
  | refresh =>
    rw [runDetectorOp] at h
    cases h1 : detRefresh fs st with
    | none => rw [h1] at h; simp at h
    | some rs =>
      obtain ⟨chs, st1⟩ := rs
      simp only [h1, Option.map_some'] at h
      injection h with h
      subst h
      rw [detRefresh] at h1
      cases h2 : detRefreshLoop fs st.loadedConfigFiles st.watches with
      | none => rw [h2] at h1; simp at h1
      | some cwm =>
        obtain ⟨chs1, ws1, m1⟩ := cwm
        simp only [h2] at h1
        injection h1 with h1
        obtain ⟨_, rfl⟩ : _ = chs ∧ _ = st1 :=
          ⟨congrArg Prod.fst h1, congrArg Prod.snd h1⟩
        obtain ⟨_, _, _, hwf2, hwo2⟩ := detRefreshLoop_wf h2 hwf.1 hwf.2
        exact ⟨hwf2, hwo2⟩

/-! ## Loader refresh abort and watched-path framing -/

theorem refreshOne_abort {fs : Fs} {memo : List (String × CanonPath)}
    {m : Cache} {ip : String} {e : String}
    (herr : fs.canonicalize ip = .error e) :
    refreshOne fs memo m ip = none := by
  rw [refreshOne, herr]

/-- If canonicalization of any watched path fails, the loader's refresh
aborts (`QLJS_UNIMPLEMENTED`) and returns no change list at all. -/
theorem refreshLoop_abort {fs : Fs} {memo : List (String × CanonPath)}
    {p : String} {e : String} (herr : fs.canonicalize p = .error e) :
    ∀ {paths : List String} {m : Cache}, p ∈ paths →
      refreshLoop fs memo m paths = none := by
  intro paths
  induction paths with
  | nil =>
    intro m hmem
    simp at hmem
  | cons p0 rest ih =>
    intro m hmem
    rw [refreshLoop]
    rcases List.mem_cons.mp hmem with rfl | hmem
    · rw [refreshOne_abort herr]
    · cases h1 : refreshOne fs memo m p0 with
      | none => rfl
      | some cm =>
        obtain ⟨chs1, m1⟩ := cm
        simp only
        rw [ih hmem]

theorem loaderRefresh_abort {fs : Fs} {st : LoaderState} {p : String}
    {e : String} (hmem : p ∈ st.watchedPaths)
    (herr : fs.canonicalize p = .error e) :
    loaderRefresh fs st = none := by
  rw [loaderRefresh, refreshLoop_abort herr hmem]

theorem find_and_load_in_dir_watched (fs : Fs) (st : LoaderState)
    (dir : CanonPath) (ip : Option String) (w : List String) :
    find_and_load_in_directory_and_ancestors fs
      { st with watchedPaths := w } dir ip =
    (find_and_load_in_directory_and_ancestors fs st dir ip).map
      (fun r => (r.1, { r.2 with watchedPaths := w })) := by
  simp only [find_and_load_in_directory_and_ancestors]
  generalize find_config_file_in_directory_and_ancestors fs
    st.loadedConfigFiles true dir = found
  by_cases herr : found.error ≠ ""
  · rw [if_pos herr, if_pos herr]
    rfl
  · rw [if_neg herr, if_neg herr]
    cases found.path with
    | none => rfl
    | some cp =>
      simp only
      have hle : ∀ st0 : LoaderState,
          find_and_load_in_directory_and_ancestors.loadFoundEntry
            { st0 with watchedPaths := w } cp found =
          ((find_and_load_in_directory_and_ancestors.loadFoundEntry st0 cp
            found).1,
            { (find_and_load_in_directory_and_ancestors.loadFoundEntry st0 cp
              found).2 with watchedPaths := w }) := by
        intro st0
        simp only [find_and_load_in_directory_and_ancestors.loadFoundEntry]
        cases found.alreadyLoaded with
        | some i => rfl
        | none => rfl
      cases ip with
      | none =>
        simp only
        rw [hle st]
        rfl
      | some ipStr =>
        simp only
        cases assocLookup st.inputPathConfigFiles ipStr with
        | some q => rfl
        | none =>
          simp only
          rw [hle { st with inputPathConfigFiles :=
            st.inputPathConfigFiles ++ [(ipStr, cp)] }]
          rfl

theorem find_and_load_for_input_watched (fs : Fs) (st : LoaderState)
    (ip : String) (w : List String) :
    find_and_load_for_input fs { st with watchedPaths := w } ip =
    (find_and_load_for_input fs st ip).map
      (fun r => (r.1, { r.2 with watchedPaths := w })) := by
  simp only [find_and_load_for_input]
  cases assocLookup st.inputPathConfigFiles ip with
  | some cp =>
    simp only
    cases lookupPair st.loadedConfigFiles cp with
    | some ie => rfl
    | none => rfl
  | none =>
    simp only
    cases fs.canonicalize ip with
    | error e => rfl
    | ok existing missing =>
      simp only
      exact find_and_load_in_dir_watched fs st
        (walkStartDirectory existing missing) (some ip) w

/-! ## Loader refresh, per-source change conditions -/

/-- Loader refresh, resolved-path case, path already in the cache: a
change is emitted iff the fresh bytes differ from the cached bytes — the
per-source recorded path is not consulted. -/
theorem refreshOne_hit_cached {fs : Fs} {memo : List (String × CanonPath)}
    {m : Cache} {ip : String} {existing : CanonPath}
    {missing : List String} {cp : CanonPath} {j : Nat} {e : LoadedEntry}
    (hcr : fs.canonicalize ip = .ok existing missing)
    (hp : (find_config_file_in_directory_and_ancestors fs m false
      (walkStartDirectory existing missing)).path = some cp)
    (hlp : lookupPair m cp = some (j, e)) :
    ∃ m2, refreshOne fs memo m ip = some
      ((if (find_config_file_in_directory_and_ancestors fs m false
          (walkStartDirectory existing missing)).fileContent ≠ e.fileContent
        then [⟨ip, ConfigPtr.entry j⟩] else []), m2) := by
  rw [refreshOne, hcr]
  simp only
  rw [hp]
  simp only [hlp]
  by_cases hne : (find_config_file_in_directory_and_ancestors fs m false
      (walkStartDirectory existing missing)).fileContent ≠ e.fileContent
  · rw [if_pos hne, if_pos hne]
    exact ⟨_, rfl⟩
  · rw [if_neg hne, if_neg hne]
    exact ⟨_, rfl⟩

/-- Loader refresh, resolved-path case, path not in the cache: a change is
always emitted, regardless of the recorded path. -/
theorem refreshOne_hit_fresh {fs : Fs} {memo : List (String × CanonPath)}
    {m : Cache} {ip : String} {existing : CanonPath}
    {missing : List String} {cp : CanonPath}
    (hcr : fs.canonicalize ip = .ok existing missing)
    (hp : (find_config_file_in_directory_and_ancestors fs m false
      (walkStartDirectory existing missing)).path = some cp)
    (hlp : lookupPair m cp = none) :
    ∃ m2, refreshOne fs memo m ip = some
      ([⟨ip, ConfigPtr.entry m.length⟩], m2) := by
  rw [refreshOne, hcr]
  simp only
  rw [hp]
  simp only [hlp]
  exact ⟨_, rfl⟩

/-- Loader refresh, no-config case: a change (to the default
configuration) is emitted iff the load-time memo has an entry for the
source; nothing is cleared — the memo is left untouched. -/
theorem refreshOne_none {fs : Fs} {memo : List (String × CanonPath)}
    {m : Cache} {ip : String} {existing : CanonPath} {missing : List String}
    (hcr : fs.canonicalize ip = .ok existing missing)
    (hp : (find_config_file_in_directory_and_ancestors fs m false
      (walkStartDirectory existing missing)).path = none) :
    refreshOne fs memo m ip = some
      ((if (assocLookup memo ip).isSome then [⟨ip, ConfigPtr.defaultPtr⟩]
        else []), m) := by
  rw [refreshOne, hcr]
  simp only
  rw [hp]
  simp only
  cases hml : assocLookup memo ip with
  | some q => simp
  | none => simp

/-! ## The claims -/

/-- C1: pointer stability of interned configurations.  Across any two
consecutive host calls on the loader (either `load_for_file` overload,
`load_config_file`, or resolution during `refresh`), two returned
configuration pointers whose cache slots carry the same canonical config
path are the same pointer (the same cache index), and neither call
relocates or removes any cache entry (the entry at every old index stays
at that index, under the same key). -/
theorem C1_pointer_stability {fs1 fs2 : Fs} {op1 op2 : LoaderOp}
    {st0 st1 st2 : LoaderState} {rs1 rs2 : List ConfigPtr}
    {i1 i2 : Nat} {c : CanonPath}
    (hnd : NodupKeys st0.loadedConfigFiles)
    (h1 : runLoaderOp fs1 op1 st0 = some (rs1, st1))
    (h2 : runLoaderOp fs2 op2 st1 = some (rs2, st2))
    (hp1 : ConfigPtr.entry i1 ∈ rs1) (hp2 : ConfigPtr.entry i2 ∈ rs2)
    (hk1 : keyAt st1.loadedConfigFiles i1 = some c)
    (hk2 : keyAt st2.loadedConfigFiles i2 = some c) :
    i1 = i2 ∧ CacheExtends st0.loadedConfigFiles st1.loadedConfigFiles ∧
      CacheExtends st1.loadedConfigFiles st2.loadedConfigFiles := by
  obtain ⟨he1, _, hnd1, _⟩ := runLoaderOp_cacheStep h1
  obtain ⟨he2, _, hnd2, _⟩ := runLoaderOp_cacheStep h2
  have hnd2' := hnd2 (hnd1 hnd)
  have hi1lt : i1 < st1.loadedConfigFiles.length := keyAt_lt_length hk1
  have hk1' : keyAt st2.loadedConfigFiles i1 = some c := by
    rw [he2.2 i1 hi1lt]
    exact hk1
  exact ⟨keyAt_inj hnd2' hk1' hk2, he1, he2⟩

/-- C1 witness: loading `/t/hello.js` twice on `fsOne` returns the entry
at index 0 both times, and both calls extend the cache in place. -/
theorem C1_pointer_stability_witness :
    (0 : Nat) = 0 ∧
    CacheExtends LoaderState.init.loadedConfigFiles
      stOne.loadedConfigFiles ∧
    CacheExtends stOne.loadedConfigFiles stOneTwice.loadedConfigFiles :=
  @C1_pointer_stability fsOne fsOne (.loadPath "/t/hello.js")
    (.loadPath "/t/hello.js") LoaderState.init stOne stOneTwice
    [.entry 0] [.entry 0] 0 0 cOne (by unfold NodupKeys cacheKeys; decide)
    (by decide) (by decide) (by decide) (by decide) (by decide) (by decide)

/-- C2: the primary config name shadows the secondary within a directory.
If the directory `d` — the nearest ancestor level holding any config (all
nearer levels are config-free, and, for the loader's cache probes, not
cache keys either) — holds both well-known names, then the loader's upward
search resolves to `primaryName :: d`, and the detector's
`get_config_file` finds its config at `primaryName :: d` as well. -/
theorem C2_primary_shadows_secondary {fs : Fs} {m : Cache} {ck : Bool}
    {start : CanonPath} {w : DetectorWatch} {existing : CanonPath}
    {missing : List String} {d : CanonPath} {b b2 : FileContent}
    (hp : fs.readFile (primaryName :: d) = .ok b)
    (hs : fs.readFile (secondaryName :: d) = .ok b2)
    (hsuf : d <:+ start)
    (hno : ∀ t, t <:+ start → d.length < t.length → noConfigDir fs t ∧
      lookupPair m (primaryName :: t) = none ∧
      lookupPair m (secondaryName :: t) = none)
    (hcr : fs.canonicalize w.watchedFilePath = .ok existing missing)
    (hsufd : d <:+ walkStartDirectory existing missing)
    (hnod : ∀ t, t <:+ walkStartDirectory existing missing →
      d.length < t.length → noConfigDir fs t) :
    (find_config_file_in_directory_and_ancestors fs m ck start).path =
      some (primaryName :: d) ∧
    ∃ r, get_config_file fs m w = some r ∧
      ∃ i, r.found = some (i, primaryName :: d) := by
  have hload : (find_config_file_in_directory_and_ancestors fs m ck
      start).path = some (primaryName :: d) := by
    rw [find_config_file_skip hsuf hno]
    exact find_config_file_at_primary hp
  have hhit : hitAt fs d := Or.inl (by rw [hp]; rfl)
  have hname : hitName fs d = primaryName := by
    simp [hitName, hp, ReadResult.okB]
  obtain ⟨r, hr, ⟨i, hfound⟩, _, _⟩ :=
    @get_config_file_nearest fs m w existing missing d hcr hsufd hhit hnod
  refine ⟨hload, r, hr, i, ?_⟩
  rw [← hname]
  exact hfound

/-- C2 witness: on `fsBoth` (both names present in `/t`), both the loader
and the detector resolve `/t/hello.js` to the primary name. -/
theorem C2_primary_shadows_secondary_witness :
    (find_config_file_in_directory_and_ancestors fsBoth [] true ["t"]).path =
      some (primaryName :: ["t"]) ∧
    ∃ r, get_config_file fsBoth [] ⟨"/t/hello.js", none⟩ = some r ∧
      ∃ i, r.found = some (i, primaryName :: ["t"]) :=
  @C2_primary_shadows_secondary fsBoth [] true ["t"]
    ⟨"/t/hello.js", none⟩ ["hello.js", "t"] [] ["t"] "both-primary"
    "both-secondary" (by decide) (by decide) (by decide)
    (by
      intro t ht hlen
      exact absurd hlen (Nat.not_lt.mpr ht.length_le))
    (by decide) (by decide)
    (by
      intro t ht hlen
      exact absurd hlen (Nat.not_lt.mpr ht.length_le))

/-- C3: nearer shadows farther.  With configs present at the nearer
ancestor `dNear` and at a strictly farther ancestor `dFar` (and nothing
between the walk start and `dNear`), the detector's `get_config_file`
returns the config found in `dNear`; moreover every directory from the
start all the way to the root is entered (registered with the watch
engine), while every config-name lookup happens at `dNear` or nearer the
source — none beyond the first hit. -/
theorem C3_nearer_shadows_farther {fs : Fs} {m : Cache} {w : DetectorWatch}
    {existing : CanonPath} {missing : List String} {dNear dFar : CanonPath}
    (hcr : fs.canonicalize w.watchedFilePath = .ok existing missing)
    (hsufN : dNear <:+ walkStartDirectory existing missing)
    (hsufF : dFar <:+ dNear.tail)
    (hhitN : hitAt fs dNear) (hhitF : hitAt fs dFar)
    (hno : ∀ t, t <:+ walkStartDirectory existing missing →
      dNear.length < t.length → noConfigDir fs t) :
    ∃ r, get_config_file fs m w = some r ∧
      (∃ i, r.found = some (i, hitName fs dNear :: dNear)) ∧
      r.entered = (walkStartDirectory existing missing).tails ∧
      ∀ q ∈ r.lookups, ∃ nm t, (nm = primaryName ∨ nm = secondaryName) ∧
        t <:+ walkStartDirectory existing missing ∧ q = nm :: t ∧
        dNear.length < t.length + 1 :=
  get_config_file_nearest hcr hsufN hhitN hno

/-- C3 witness: on `fsAB`, `/t/d/b.js` resolves to the inner config
`/t/d/quick-lint-js.config`, with the outer `/t/quick-lint-js.config`
shadowed. -/
theorem C3_nearer_shadows_farther_witness :
    ∃ r, get_config_file fsAB [] ⟨"/t/d/b.js", none⟩ = some r ∧
      (∃ i, r.found = some (i, hitName fsAB ["d", "t"] :: ["d", "t"])) ∧
      r.entered = (walkStartDirectory ["b.js", "d", "t"] []).tails ∧
      ∀ q ∈ r.lookups, ∃ nm t, (nm = primaryName ∨ nm = secondaryName) ∧
        t <:+ walkStartDirectory ["b.js", "d", "t"] [] ∧ q = nm :: t ∧
        (["d", "t"] : CanonPath).length < t.length + 1 :=
  @C3_nearer_shadows_farther fsAB [] ⟨"/t/d/b.js", none⟩
    ["b.js", "d", "t"] [] ["d", "t"] ["t"] (by decide) (by decide)
    (by decide) (by unfold hitAt; decide) (by unfold hitAt; decide)
    (by
      intro t ht hlen
      exact absurd hlen (Nat.not_lt.mpr ht.length_le))

/-- C4 counterexample: the loader's refresh does not compare the resolved
path against the source's recorded path.  On `fsABDel` (inner config
deleted after `stAB` was built), `/t/d/b.js` re-resolves to the OUTER
config `/t/quick-lint-js.config`, which differs from the recorded
`/t/d/quick-lint-js.config`; the claim then requires a ConfigChange, but
refresh emits none (the outer entry's bytes are unchanged). -/
theorem C4_counterexample :
    fsABDel.canonicalize "/t/d/b.js" = .ok ["b.js", "d", "t"] [] ∧
    assocLookup stAB.inputPathConfigFiles "/t/d/b.js" =
      some [primaryName, "d", "t"] ∧
    (find_config_file_in_directory_and_ancestors fsABDel
      stAB.loadedConfigFiles false ["d", "t"]).path =
      some [primaryName, "t"] ∧
    (loaderRefresh fsABDel stAB).map Prod.fst = some [] := by
  decide

/-- C4 (amended): the claimed iff — change emitted exactly when the
resolved path differs from the recorded path or the fresh bytes differ
from the cached bytes — holds for the DETECTOR
(`configuration_change_detector_impl::get_config_file`); the LOADER's
refresh instead keys the change solely on a bytes comparison against the
cache entry at the resolved path (emitting nothing for a byte-identical
rewrite, but also nothing when only the resolved path changed). -/
theorem C4_refresh_change_condition {fs : Fs} {m : Cache}
    {w : DetectorWatch} {r : GetConfigFileResult} {i : Nat} {cp : CanonPath}
    {j : Nat} {e : LoadedEntry} {memo : List (String × CanonPath)}
    {ip : String} {existing : CanonPath} {missing : List String}
    {cp2 : CanonPath} {j2 : Nat} {e2 : LoadedEntry}
    (h : get_config_file fs m w = some r) (hf : r.found = some (i, cp))
    (hl : lookupPair m cp = some (j, e))
    (hcr : fs.canonicalize ip = .ok existing missing)
    (hp : (find_config_file_in_directory_and_ancestors fs m false
      (walkStartDirectory existing missing)).path = some cp2)
    (hl2 : lookupPair m cp2 = some (j2, e2)) :
    (∃ b, fs.readFile cp = .ok b ∧
      (r.didChange = true ↔
        ¬(some cp = w.configFilePath ∧ b = e.fileContent))) ∧
    ∃ m2, refreshOne fs memo m ip = some
      ((if (find_config_file_in_directory_and_ancestors fs m false
          (walkStartDirectory existing missing)).fileContent ≠ e2.fileContent
        then [⟨ip, ConfigPtr.entry j2⟩] else []), m2) := by
  obtain ⟨b, hread, hiff, _⟩ := get_config_file_hit h hf
  have hemp : (emplaceDefault m cp).2.2.1 = e := by
    simp only [emplaceDefault, hl]
  rw [hemp] at hiff
  exact ⟨⟨b, hread, hiff⟩, refreshOne_hit_cached hcr hp hl2⟩

/-- C4 witness: detector and loader refresh of `/t/hello.js` on an
unchanged `fsOne`: the detector's `did_change` iff is exercised at a
cached hit, and the loader's change list is the byte-comparison `if`. -/
theorem C4_refresh_change_condition_witness :
    (∃ b, fsOne.readFile cOne = .ok b ∧
      (rOne.didChange = true ↔
        ¬(some cOne = wOneRec.configFilePath ∧ b = eOne.fileContent))) ∧
    ∃ m2, refreshOne fsOne stOne.inputPathConfigFiles
        stOne.loadedConfigFiles "/t/hello.js" = some
      ((if (find_config_file_in_directory_and_ancestors fsOne
          stOne.loadedConfigFiles false
          (walkStartDirectory ["hello.js", "t"] [])).fileContent ≠
          eOne.fileContent
        then [⟨"/t/hello.js", ConfigPtr.entry 0⟩] else []), m2) :=
  @C4_refresh_change_condition fsOne stOne.loadedConfigFiles wOneRec rOne
    0 cOne 0 eOne stOne.inputPathConfigFiles "/t/hello.js"
    ["hello.js", "t"] [] cOne 0 eOne (by decide) (by decide) (by decide)
    (by decide) (by decide) (by decide)

/-- C5 counterexample: the loader never clears its load-time memo.  After
the config of `/t/hello.js` is deleted (`fsOneGone`), refresh emits the
default-config change AND leaves the state exactly `stOne`, so the
immediately following refresh — the same call on the same state — emits
the same change again instead of nothing. -/
theorem C5_counterexample :
    loaderRefresh fsOneGone stOne =
      some ([⟨"/t/hello.js", ConfigPtr.defaultPtr⟩], stOne) ∧
    (loaderRefresh fsOneGone stOne).map Prod.fst ≠ some [] := by
  decide

/-- C5 (amended): when resolution finds no config, the DETECTOR emits a
change exactly when a config path was recorded, clears the recorded path,
and an immediately following no-hit resolution reports no change; the
LOADER instead keys the default-config change on its (never-cleared)
load-time memo and leaves the cache untouched, so the emission repeats on
every refresh. -/
theorem C5_refresh_none_condition {fs : Fs} {m : Cache} {w : DetectorWatch}
    {r : GetConfigFileResult} {fs2 : Fs} {r2 : GetConfigFileResult}
    {memo : List (String × CanonPath)} {ip : String} {existing : CanonPath}
    {missing : List String}
    (h : get_config_file fs m w = some r) (hf : r.found = none)
    (h2 : get_config_file fs2 r.cache r.watch = some r2)
    (hf2 : r2.found = none)
    (hcr : fs.canonicalize ip = .ok existing missing)
    (hp : (find_config_file_in_directory_and_ancestors fs m false
      (walkStartDirectory existing missing)).path = none) :
    ((r.didChange = true ↔ w.configFilePath.isSome = true) ∧
      r.watch.configFilePath = none ∧ r2.didChange = false) ∧
    refreshOne fs memo m ip = some
      ((if (assocLookup memo ip).isSome then [⟨ip, ConfigPtr.defaultPtr⟩]
        else []), m) := by
  obtain ⟨hiff, hclear, _⟩ := get_config_file_nohit h hf
  obtain ⟨hiff2, _, _⟩ := get_config_file_nohit h2 hf2
  have hsecond : r2.didChange = false := by
    cases hdc : r2.didChange
    · rfl
    · have := hiff2.mp hdc
      rw [hclear] at this
      simp at this
  exact ⟨⟨hiff, hclear, hsecond⟩, refreshOne_none hcr hp⟩

/-- C5 witness: the deleted-config scenario on `fsOneGone`: the detector
emits once (the recorded path was set), clears it, and stays silent on the
second pass; the loader's per-source change list is the memo-keyed `if`. -/
theorem C5_refresh_none_condition_witness :
    ((rGone.didChange = true ↔ wOneRec.configFilePath.isSome = true) ∧
      rGone.watch.configFilePath = none ∧ rGone2.didChange = false) ∧
    refreshOne fsOneGone stOne.inputPathConfigFiles stOne.loadedConfigFiles
      "/t/hello.js" = some
      ((if (assocLookup stOne.inputPathConfigFiles "/t/hello.js").isSome
        then [⟨"/t/hello.js", ConfigPtr.defaultPtr⟩]
        else []), stOne.loadedConfigFiles) :=
  @C5_refresh_none_condition fsOneGone stOne.loadedConfigFiles wOneRec
    rGone fsOneGone rGone2 stOne.inputPathConfigFiles "/t/hello.js"
    ["hello.js", "t"] [] (by decide) (by decide) (by decide) (by decide)
    (by decide) (by decide)

/-- C6 counterexample: the refresh path DOES abort.  With the
unresolvable `/bad.js` registered alongside the perfectly healthy
`/t/hello.js` (`stBadGood`), both the loader's and the detector's refresh
return the `QLJS_UNIMPLEMENTED` abort instead of treating the bad source
as "no change" and covering the remaining source. -/
theorem C6_counterexample :
    loaderRefresh fsOne stBadGood = none ∧
    detRefresh fsOne ⟨[⟨"/bad.js", none⟩, ⟨"/t/hello.js", none⟩], []⟩ =
      none ∧
    stBadGood.watchedPaths = ["/bad.js", "/t/hello.js"] := by
  decide

/-- C6 (amended): a canonicalization failure on ANY registered source
aborts the whole refresh pass (`QLJS_UNIMPLEMENTED`), in the loader and in
the detector alike; no change list is returned for the remaining
sources. -/
theorem C6_refresh_abort {fs : Fs} {st : LoaderState} {p e : String}
    {dst : DetectorState} {w : DetectorWatch} {e2 : String}
    (hmem : p ∈ st.watchedPaths) (herr : fs.canonicalize p = .error e)
    (hmem2 : w ∈ dst.watches)
    (herr2 : fs.canonicalize w.watchedFilePath = .error e2) :
    loaderRefresh fs st = none ∧ detRefresh fs dst = none :=
  ⟨loaderRefresh_abort hmem herr, detRefresh_abort hmem2 herr2⟩

/-- C6 witness: refreshing with `/bad.js` registered aborts both
engines. -/
theorem C6_refresh_abort_witness :
    loaderRefresh fsOne stBadGood = none ∧
    detRefresh fsOne ⟨[⟨"/bad.js", none⟩], []⟩ = none :=
  @C6_refresh_abort fsOne stBadGood "/bad.js" "canonicalize failed"
    ⟨[⟨"/bad.js", none⟩], []⟩ ⟨"/bad.js", none⟩ "canonicalize failed"
    (by decide) (by decide) (by decide) (by decide)

/-- C7: the `loaded_config_file` invariant.  After any loader host call
and any detector host call, every cache entry's configuration records
exactly the entry's key path, and its most recent load took exactly the
entry's stored bytes (`CacheWF`). -/
theorem C7_loaded_config_file_invariant {fs : Fs} {op : LoaderOp}
    {st : LoaderState} {rs : List ConfigPtr} {st2 : LoaderState}
    {fsd : Fs} {dop : DetectorOp} {dst dst2 : DetectorState}
    (h : runLoaderOp fs op st = some (rs, st2))
    (hwf : CacheWF st.loadedConfigFiles)
    (h2 : runDetectorOp fsd dop dst = some dst2) (hdwf : DetectorWF dst) :
    CacheWF st2.loadedConfigFiles ∧ CacheWF dst2.loadedConfigFiles :=
  ⟨(runLoaderOp_cacheStep h).2.2.2 hwf, (runDetectorOp_wf h2 hdwf).1⟩

/-- C7 witness: the invariant holds after loading `/t/hello.js` through
the loader and through the detector, starting from the empty states. -/
theorem C7_loaded_config_file_invariant_witness :
    CacheWF stOne.loadedConfigFiles ∧ CacheWF dstOne.loadedConfigFiles :=
  @C7_loaded_config_file_invariant fsOne (.loadPath "/t/hello.js")
    LoaderState.init [.entry 0] stOne fsOne
    (.getConfigForFile "/t/hello.js") DetectorState.init dstOne
    (by decide)
    (by
      intro ke hke
      exact absurd hke (List.not_mem_nil ke))
    (by decide)
    (by
      constructor
      · intro ke hke
        exact absurd hke (List.not_mem_nil ke)
      · intro w hw
        exact absurd hw (List.not_mem_nil w))

/-- C8: `enter_directory` is NOT idempotent on the kqueue backend.
Entering the same directory twice opens a second descriptor and appends a
second watch to `watched_directories_` (the in-source
`// @@@ don't duplicate watches` comment marks the missing
deduplication), so the state after the second call differs from the state
after the first. -/
theorem C8_kqueue_enter_directory_not_idempotent :
    kqueue_enter_directory (kqueue_enter_directory KqueueState.init ["t"])
        ["t"] ≠
      kqueue_enter_directory KqueueState.init ["t"] ∧
    (kqueue_enter_directory (kqueue_enter_directory KqueueState.init ["t"])
        ["t"]).watchedDirectories = [(0, ["t"]), (1, ["t"])] ∧
    (kqueue_enter_directory KqueueState.init ["t"]).watchedDirectories =
      [(0, ["t"])] := by
  decide

/-- C9: the structured `load_for_file(file_to_lint)` overload never
registers the file in `watched_paths_`; its result is exactly the string
overload's minus the watched-path append; and a subsequent refresh never
emits a change for a file loaded only through it. -/
theorem C9_structured_overload_frame {fs : Fs} {st : LoaderState}
    {f : FileToLint} {r : Except String ConfigPtr} {st2 : LoaderState}
    {p : String} {chs : List Change} {st3 : LoaderState}
    (h : load_for_file_lint fs st f = some (r, st2))
    (hp : f.path = some p) (hcf : f.configFile = none)
    (h2 : loaderRefresh fs st2 = some (chs, st3))
    (hnw : p ∉ st.watchedPaths) :
    st2.watchedPaths = st.watchedPaths ∧
    load_for_file_path fs st p =
      some (r, { st2 with watchedPaths := st.watchedPaths ++ [p] }) ∧
    ∀ ch ∈ chs, ch.watchedPath ≠ p := by
  have hw : st2.watchedPaths = st.watchedPaths :=
    (load_for_file_lint_effects h).1
  have hlint : find_and_load_for_input fs st p = some (r, st2) := by
    rw [load_for_file_lint, hcf, hp] at h
    exact h
  have hpath : load_for_file_path fs st p =
      some (r, { st2 with watchedPaths := st.watchedPaths ++ [p] }) := by
    rw [load_for_file_path, find_and_load_for_input_watched, hlint]
    rfl
  refine ⟨hw, hpath, ?_⟩
  intro ch hch heq
  obtain ⟨_, _, _, hcov⟩ := loaderRefresh_effects h2
  have hmem := hcov ch hch
  rw [hw, heq] at hmem
  exact hnw hmem

/-- C9 witness: loading `/t/hello.js` through the structured overload
leaves `watched_paths_` empty, matches the string overload minus the
append, and the subsequent refresh emits nothing. -/
theorem C9_structured_overload_frame_witness :
    stLint.watchedPaths = LoaderState.init.watchedPaths ∧
    load_for_file_path fsOne LoaderState.init "/t/hello.js" =
      some (.ok (.entry 0), { stLint with
        watchedPaths := LoaderState.init.watchedPaths ++ ["/t/hello.js"] }) ∧
    ∀ ch ∈ ([] : List Change), ch.watchedPath ≠ "/t/hello.js" :=
  @C9_structured_overload_frame fsOne LoaderState.init
    ⟨some "/t/hello.js", none⟩ (.ok (.entry 0)) stLint "/t/hello.js" []
    stLint (by decide) (by decide) (by decide) (by decide) (by decide)

/-- C10: the string overload registers the input path in `watched_paths_`
before resolution, and a resolution error does not roll the registration
back: the call returns the error with the path appended, and the very next
refresh re-resolves it (here: hits the same canonicalization failure and
aborts, rather than skipping the path). -/
theorem C10_watch_registration_no_rollback {fs : Fs} {st : LoaderState}
    {p : String} {r : Except String ConfigPtr} {st2 : LoaderState}
    {e : String}
    (h : load_for_file_path fs st p = some (r, st2))
    (herr : fs.canonicalize p = .error e)
    (hmemo : assocLookup st.inputPathConfigFiles p = none) :
    r = .error e ∧
    st2 = { st with watchedPaths := st.watchedPaths ++ [p] } ∧
    loaderRefresh fs st2 = none := by
  rw [load_for_file_path, find_and_load_for_input] at h
  simp only [hmemo, herr] at h
  injection h with h
  obtain ⟨hr, hst⟩ : Except.error e = r ∧ _ = st2 :=
    ⟨congrArg Prod.fst h, congrArg Prod.snd h⟩
  refine ⟨hr.symm, hst.symm, ?_⟩
  rw [← hst]
  exact @loaderRefresh_abort fs
    { st with watchedPaths := st.watchedPaths ++ [p] } p e (by simp) herr

/-- C10 witness: loading the unresolvable `/bad.js` returns the
canonicalization error, leaves `/bad.js` registered (`stBad`), and the
next refresh attempts it again and aborts. -/
theorem C10_watch_registration_no_rollback_witness :
    (Except.error "canonicalize failed" : Except String ConfigPtr) =
      .error "canonicalize failed" ∧
    stBad = { LoaderState.init with
      watchedPaths := LoaderState.init.watchedPaths ++ ["/bad.js"] } ∧
    loaderRefresh fsOne stBad = none :=
  @C10_watch_registration_no_rollback fsOne LoaderState.init "/bad.js"
    (.error "canonicalize failed") stBad "canonicalize failed"
    (by decide) (by decide) (by decide)

end QLJS
